import Mathlib

/-!
# Verification of the `prosemirror-rs` markdown core

Shallow embedding of the markdown document model, content-matching grammar,
event deserializer (`from_markdown.rs`), event serializer (`to_markdown.rs`)
and text printer (`print_markdown.rs`) of the `prosemirror-rs` repository,
together with theorems settling the specification's claims about them.

Conventions of the embedding:
* Rust `Vec` stacks (push/pop at the end) are modelled as Lean lists whose
  head is the top of the stack.
* Rust machine integers that the code never overflows (`u8` heading levels,
  `usize` buffer positions) are modelled as `Nat`; the single fallible
  integer conversion in the sources (`u64 -> usize` for ordered-list
  ordinals) is modelled with an explicit bit-width parameter.
* Rust `String` byte positions are modelled as character positions (the two
  agree on ASCII data; none of the algorithms inspect byte structure).
* The event alphabet of the external `pulldown_cmark` tokenizer is modelled
  as an inductive type with exactly the variants the sources construct and
  match on; constant fields the code never reads (`link_type`, `id`) are
  omitted.
* The generic tree-model crate (`crate::model`: `Fragment`, `MarkSet`,
  `Text`, `Node::text_content`) is not part of the source snapshot; the few
  pieces of it that the markdown code uses are modelled from the
  specification and are marked as such in their doc comments.
-/

namespace ProseMD

/-! ## Attribute types (`src/markdown/attrs.rs`) -/

/-- Attributes for a heading; `level` is a `u8` in the source. -/
structure HeadingAttrs where
  level : Nat
deriving DecidableEq, Repr

/-- Attributes for a code block (the info string after the fence), named
`params` as in `from_markdown.rs`/`to_markdown.rs`. -/
structure CodeBlockAttrs where
  params : String
deriving DecidableEq, Repr

/-- Attributes for a bullet list (field used by `from_markdown.rs`). -/
structure BulletListAttrs where
  tight : Bool
deriving DecidableEq, Repr

/-- Attributes for an ordered list; `order` is a `usize` in the source. -/
structure OrderedListAttrs where
  order : Nat
  tight : Bool
deriving DecidableEq, Repr

/-- Attributes for an image (fields used by `from_markdown.rs`). -/
structure ImageAttrs where
  src : String
  alt : String
  title : String
deriving DecidableEq, Repr

/-- The attributes for a hyperlink. -/
structure LinkAttrs where
  href : String
  title : String
deriving DecidableEq, Repr

/-- The attributes for a footnote. -/
structure FootnoteAttrs where
  label : String
deriving DecidableEq, Repr

/-- The attributes for a task list marker `[x]` or `[ ]`. -/
structure TaskListMarkerAttrs where
  checked : Bool
deriving DecidableEq, Repr

/-- Column alignment of a table (1:1 copy of the tokenizer's `Alignment`). -/
inductive Alignment where
  | none
  | left
  | center
  | right
deriving DecidableEq, Repr

/-- The attributes for a table. -/
structure TableAttrs where
  alignment : List Alignment
deriving DecidableEq, Repr

/-! ## Marks (`src/markdown/mark.rs`, plus the `HtmlTag` variant that
`from_markdown.rs`/`to_markdown.rs` and `MarkdownMarkType` use) -/

/-- The marks that can be on some span. -/
inductive MarkdownMark where
  | strong
  | em
  | code
  | link (attrs : LinkAttrs)
  | footnote (attrs : FootnoteAttrs)
  | strikethrough
  | htmlTag
deriving DecidableEq, Repr

/-! ## Node types and the content grammar
(`src/markdown/schema.rs`, `src/markdown/content.rs`) -/

/-- The node-spec type for the markdown schema. -/
inductive MarkdownNodeType where
  | doc
  | heading
  | codeBlock
  | text
  | blockquote
  | paragraph
  | bulletList
  | orderedList
  | listItem
  | horizontalRule
  | hardBreak
  | image
  | footnoteDefinition
  | taskListMarker
  | metadata
  | table
  | tableHead
  | tableRow
  | tableCell
  | html (inline : Bool)
deriving DecidableEq, Repr

/-- The content match type for markdown. -/
inductive MarkdownContentMatch where
  | star
  | inlineStar
  | blockPlus
  | blockStar
  | orTextImageStar
  | textStar
  | listItemPlus
  | listItemStar
  | paragraphBlockStar
  | empty
deriving DecidableEq, Repr

/-- `then_some` from `crate::util` (`b.then_some(a)` semantics). -/
def then_some {α : Type} (b : Bool) (a : α) : Option α :=
  if b then some a else none

namespace MarkdownNodeType

/-- `MarkdownNodeType::_allow_marks` (schema.rs). -/
def _allow_marks : MarkdownNodeType → Bool
  | .doc | .blockquote | .bulletList | .orderedList | .listItem => false
  | .codeBlock => false
  | .heading | .paragraph => true
  | .footnoteDefinition => true
  | .metadata => false
  | .tableCell | .tableHead | .tableRow | .table => true
  | .text | .taskListMarker | .horizontalRule | .hardBreak | .image => true
  | .html _ => true

/-- `NodeType::allow_marks` for the markdown schema: it ignores the mark set
and defers to `_allow_marks` (schema.rs). -/
def allow_marks (t : MarkdownNodeType) (_marks : List MarkdownMark) : Bool :=
  t._allow_marks

/-- `MarkdownNodeType::is_block` (schema.rs), the type-level block predicate
used by the content grammar. -/
def is_block : MarkdownNodeType → Bool
  | .doc => true
  | .heading => false
  | .codeBlock => true
  | .text => false
  | .blockquote => true
  | .paragraph => true
  | .bulletList => true
  | .orderedList => true
  | .listItem => false
  | .horizontalRule => true
  | .hardBreak => false
  | .image => false
  | .footnoteDefinition => true
  | .taskListMarker => false
  | .metadata => true
  | .table => true
  | .tableHead => false
  | .tableRow => false
  | .tableCell => false
  | .html inline => !inline

/-- Modelled from the spec: `NodeType::is_inline` lives in the missing
generic tree-model crate; a node type is inline iff it is not a block
(ProseMirror's standard derived notion, used by the `inline*` grammar). -/
def is_inline (t : MarkdownNodeType) : Bool :=
  !t.is_block

/-- `MarkdownNodeType::content_match` (schema.rs). -/
def content_match : MarkdownNodeType → MarkdownContentMatch
  | .doc => .star
  | .heading => .orTextImageStar
  | .codeBlock => .textStar
  | .text => .empty
  | .blockquote => .blockPlus
  | .paragraph => .inlineStar
  | .bulletList => .listItemPlus
  | .orderedList => .listItemPlus
  | .listItem => .paragraphBlockStar
  | .horizontalRule => .empty
  | .hardBreak => .empty
  | .image => .empty
  | .footnoteDefinition => .inlineStar
  | .taskListMarker => .empty
  | .metadata => .textStar
  | .table => .blockPlus
  | .tableHead => .blockPlus
  | .tableRow => .blockPlus
  | .tableCell => .inlineStar
  | .html true => .inlineStar
  | .html false => .blockStar

end MarkdownNodeType

namespace MarkdownContentMatch

/-- `ContentMatch::match_type` for the markdown schema (content.rs). -/
def match_type : MarkdownContentMatch → MarkdownNodeType → Option MarkdownContentMatch
  | .star, _ => some .star
  | .inlineStar, t => then_some t.is_inline .inlineStar
  | .blockPlus, t => then_some t.is_block .blockStar
  | .blockStar, t => then_some t.is_block .blockStar
  | .orTextImageStar, t =>
    then_some (t = .text || t = .image) .orTextImageStar
  | .textStar, t => then_some (t = .text) .textStar
  | .listItemPlus, t => then_some (t = .listItem) .listItemStar
  | .listItemStar, t => then_some (t = .listItem) .listItemStar
  | .paragraphBlockStar, t => then_some (t = .paragraph) .blockStar
  | .empty, _ => none

/-- `ContentMatch::valid_end` for the markdown schema (content.rs). -/
def valid_end : MarkdownContentMatch → Bool
  | .star => true
  | .inlineStar => true
  | .blockPlus => false
  | .blockStar => true
  | .orTextImageStar => true
  | .textStar => true
  | .listItemPlus => false
  | .listItemStar => true
  | .paragraphBlockStar => true
  | .empty => true

/-- `MarkdownContentMatch::compatible` (content.rs). -/
def compatible : MarkdownContentMatch → MarkdownContentMatch → Bool
  | .star, _ => true
  | .inlineStar, other =>
    other = .inlineStar || other = .orTextImageStar || other = .textStar
  | .blockPlus, other =>
    other = .blockPlus || other = .paragraphBlockStar || other = .blockStar
  | .blockStar, other =>
    other = .blockPlus || other = .paragraphBlockStar || other = .blockStar
  | .orTextImageStar, other =>
    other = .inlineStar || other = .orTextImageStar || other = .textStar
  | .textStar, other =>
    other = .inlineStar || other = .orTextImageStar || other = .textStar
  | .listItemPlus, other => other = .listItemPlus || other = .listItemStar
  | .listItemStar, other => other = .listItemPlus || other = .listItemStar
  | .paragraphBlockStar, other =>
    other = .blockPlus || other = .paragraphBlockStar
  | .empty, _ => false

end MarkdownContentMatch

/-! ## The document tree (`src/markdown/node.rs`)

Modelled from the spec where the missing tree-model crate is concerned:
a `Fragment` is an ordered sequence of sibling nodes (here a plain list),
a `MarkSet` is the set of marks on one text run (here a list; none of the
verified code depends on deduplication), and a `TextNode` owns a string
payload plus its `MarkSet`. -/

/-- A text node's payload: a string and its mark set. -/
structure TextNode where
  text : String
  marks : List MarkdownMark
deriving DecidableEq, Repr

/-- The node type for the markdown schema.  Variants carrying a `Block` or
`AttrNode` content fragment in the source carry a `List MarkdownNode` here. -/
inductive MarkdownNode where
  | doc (content : List MarkdownNode)
  | heading (attrs : HeadingAttrs) (content : List MarkdownNode)
  | codeBlock (attrs : CodeBlockAttrs) (content : List MarkdownNode)
  | text (node : TextNode)
  | blockquote (content : List MarkdownNode)
  | paragraph (content : List MarkdownNode)
  | bulletList (attrs : BulletListAttrs) (content : List MarkdownNode)
  | orderedList (attrs : OrderedListAttrs) (content : List MarkdownNode)
  | listItem (content : List MarkdownNode)
  | horizontalRule
  | hardBreak
  | taskListMarker (attrs : TaskListMarkerAttrs)
  | image (attrs : ImageAttrs) (content : List MarkdownNode)
  | footnoteDefinition (attrs : FootnoteAttrs) (content : List MarkdownNode)
  | metadata (content : List MarkdownNode)
  | table (attrs : TableAttrs) (content : List MarkdownNode)
  | tableHead (content : List MarkdownNode)
  | tableRow (content : List MarkdownNode)
  | tableCell (content : List MarkdownNode)

/-- A fragment: an ordered sequence of sibling nodes. -/
abbrev Fragment := List MarkdownNode

namespace MarkdownNode

/-- `Node::is_block` for `MarkdownNode` (node.rs), the node-level block
predicate. -/
def is_block : MarkdownNode → Bool
  | .doc _ => true
  | .paragraph _ => true
  | .blockquote _ => true
  | .horizontalRule => true
  | .heading _ _ => true
  | .codeBlock _ _ => true
  | .orderedList _ _ => true
  | .bulletList _ _ => true
  | .listItem _ => true
  | .text _ => false
  | .image _ _ => false
  | .hardBreak => false
  | .taskListMarker _ => false
  | .footnoteDefinition _ _ => true
  | .metadata _ => true
  | .table _ _ => true
  | .tableCell _ => true
  | .tableHead _ => true
  | .tableRow _ => true

/-- `Node::r#type` for `MarkdownNode` (node.rs). -/
def node_type : MarkdownNode → MarkdownNodeType
  | .doc _ => .doc
  | .paragraph _ => .paragraph
  | .blockquote _ => .blockquote
  | .horizontalRule => .horizontalRule
  | .heading _ _ => .heading
  | .codeBlock _ _ => .codeBlock
  | .orderedList _ _ => .orderedList
  | .bulletList _ _ => .bulletList
  | .listItem _ => .listItem
  | .text _ => .text
  | .image _ _ => .image
  | .hardBreak => .hardBreak
  | .footnoteDefinition _ _ => .footnoteDefinition
  | .taskListMarker _ => .taskListMarker
  | .metadata _ => .metadata
  | .table _ _ => .table
  | .tableHead _ => .tableHead
  | .tableRow _ => .tableRow
  | .tableCell _ => .tableCell

/-- `Node::marks` for `MarkdownNode` (node.rs): it returns `None` for every
node, including text nodes that do carry a mark set. -/
def marks (_n : MarkdownNode) : Option (List MarkdownMark) :=
  none

end MarkdownNode

namespace MarkdownContentMatch

/-- `ContentMatch::match_fragment_range` over the whole fragment
(content.rs): fold `match_type` over the children in order,
short-circuiting to `none` on the first rejected child. -/
def match_fragment : MarkdownContentMatch → Fragment → Option MarkdownContentMatch
  | m, [] => some m
  | m, child :: rest =>
    match m.match_type child.node_type with
    | some next => next.match_fragment rest
    | none => none

end MarkdownContentMatch

namespace MarkdownNodeType

/-- `MarkdownNodeType::valid_content` (schema.rs): the grammar fold must
reach a `valid_end` state, and then every child whose `marks()` are
disallowed rejects the fragment (the source's loop, kept verbatim: it
inspects `Node::marks`, which is `none` for every markdown node). -/
def valid_content (t : MarkdownNodeType) (fragment : Fragment) : Bool :=
  match t.content_match.match_fragment fragment with
  | some m =>
    m.valid_end &&
      fragment.all fun child =>
        !((child.marks.filter fun ms => !(t.allow_marks ms)).isSome)
  | none => false

/-- `MarkdownNodeType::compatible_content` (schema.rs). -/
def compatible_content (t other : MarkdownNodeType) : Bool :=
  t = other || t.content_match.compatible other.content_match

end MarkdownNodeType

/-! ## The tokenizer event alphabet

The external tokenizer's `Event`/`Tag`/`TagEnd` types, restricted to the
variants the sources construct and match on.  The constant `link_type` and
`id` fields, which the sources never read, are omitted. -/

/-- Heading levels `H1`..`H6`. -/
inductive HeadingLevel where
  | h1
  | h2
  | h3
  | h4
  | h5
  | h6
deriving DecidableEq, Repr

/-- The numeric value of a heading level (the `as usize` cast). -/
def HeadingLevel.toNat : HeadingLevel → Nat
  | .h1 => 1
  | .h2 => 2
  | .h3 => 3
  | .h4 => 4
  | .h5 => 5
  | .h6 => 6

/-- Code-block kinds: indented, or fenced with an info string. -/
inductive CodeBlockKind where
  | indented
  | fenced (params : String)
deriving DecidableEq, Repr

/-- Metadata block kinds. -/
inductive MetadataBlockKind where
  | yamlStyle
  | plusesStyle
deriving DecidableEq, Repr

/-- Start tags; `list`'s field is the starting ordinal of an ordered list
(a `u64` in the tokenizer, so any `Nat` below `2 ^ 64` can appear). -/
inductive Tag where
  | paragraph
  | heading (level : HeadingLevel)
  | blockQuote
  | codeBlock (kind : CodeBlockKind)
  | list (start : Option Nat)
  | item
  | footnoteDefinition (label : String)
  | table (alignment : List Alignment)
  | tableHead
  | tableRow
  | tableCell
  | emphasis
  | strong
  | strikethrough
  | htmlBlock
  | metadataBlock (kind : MetadataBlockKind)
  | link (destUrl : String) (title : String)
  | image (destUrl : String) (title : String)
deriving DecidableEq, Repr

/-- End tags. -/
inductive TagEnd where
  | paragraph
  | heading (level : HeadingLevel)
  | blockQuote
  | codeBlock
  | list (ordered : Bool)
  | item
  | footnoteDefinition
  | table
  | tableHead
  | tableRow
  | tableCell
  | emphasis
  | strong
  | strikethrough
  | htmlBlock
  | metadataBlock (kind : MetadataBlockKind)
  | link
  | image
deriving DecidableEq, Repr

/-- `Tag::to_end`. -/
def Tag.to_end : Tag → TagEnd
  | .paragraph => .paragraph
  | .heading level => .heading level
  | .blockQuote => .blockQuote
  | .codeBlock _ => .codeBlock
  | .list start => .list start.isSome
  | .item => .item
  | .footnoteDefinition _ => .footnoteDefinition
  | .table _ => .table
  | .tableHead => .tableHead
  | .tableRow => .tableRow
  | .tableCell => .tableCell
  | .emphasis => .emphasis
  | .strong => .strong
  | .strikethrough => .strikethrough
  | .htmlBlock => .htmlBlock
  | .metadataBlock kind => .metadataBlock kind
  | .link _ _ => .link
  | .image _ _ => .image

/-- Tokenizer events. -/
inductive Event where
  | start (tag : Tag)
  | endTag (tag : TagEnd)
  | text (s : String)
  | code (s : String)
  | inlineHtml (s : String)
  | html (s : String)
  | footnoteReference (s : String)
  | softBreak
  | hardBreak
  | rule
  | taskListMarker (checked : Bool)
deriving DecidableEq, Repr

/-! ## The deserializer (`src/markdown/from_markdown.rs`) -/

/-- The frame attributes kept on the deserializer stack (`Attrs`). -/
inductive Attrs where
  | doc
  | paragraph
  | heading (attrs : HeadingAttrs)
  | blockquote
  | codeBlock (attrs : CodeBlockAttrs)
  | orderedList (attrs : OrderedListAttrs)
  | bulletList (attrs : BulletListAttrs)
  | listItem
  | image (attrs : ImageAttrs)
  | footnoteDefinition (attrs : FootnoteAttrs)
  | metadata
  | table (attrs : TableAttrs)
  | tableHead
  | tableRow
  | tableCell
deriving DecidableEq, Repr

/-- Errors that can occur when reading a markdown file
(`FromMarkdownError`); the `TryFromIntError` payload of `LevelMismatch` is
opaque and omitted. -/
inductive FromMarkdownError where
  | levelMismatch
  | stackEmpty
  | misplacedEndTag (expected : String) (actual : Attrs)
  | noChildrenAllowed (kind : String)
deriving DecidableEq, Repr

/-- Modelled from the spec: `MarkSet::add` of the missing tree-model crate;
set semantics, so adding an already-present mark is a no-op (insertion
order is kept for deterministic round-trips). -/
def markset_add (set : List MarkdownMark) (m : MarkdownMark) : List MarkdownMark :=
  if set.contains m then set else set ++ [m]

/-- Modelled from the spec: `MarkSet::remove` of the missing tree-model
crate; removes the mark equal to `m`. -/
def markset_remove (set : List MarkdownMark) (m : MarkdownMark) : List MarkdownMark :=
  set.filter fun x => x ≠ m

/-- Modelled from the spec: `MarkSet::remove_matching` of the missing
tree-model crate; removes every mark satisfying the predicate (used to
remove any `Link` mark). -/
def markset_remove_matching (set : List MarkdownMark) (p : MarkdownMark → Bool) :
    List MarkdownMark :=
  set.filter fun x => !(p x)

/-- Modelled from the spec: `Text::remove_last_newline` of the missing
tree-model crate; strips a single trailing newline. -/
def remove_last_newline (s : String) : String :=
  if s.endsWith "\n" then s.dropRight 1 else s

mutual

/-- Modelled from the spec: `Node::text_content` of the missing tree-model
crate; the plain text of a subtree, flattening through all structure. -/
def text_content : MarkdownNode → String
  | .text tn => tn.text
  | .doc content => text_content_list content
  | .heading _ content => text_content_list content
  | .codeBlock _ content => text_content_list content
  | .blockquote content => text_content_list content
  | .paragraph content => text_content_list content
  | .bulletList _ content => text_content_list content
  | .orderedList _ content => text_content_list content
  | .listItem content => text_content_list content
  | .horizontalRule => ""
  | .hardBreak => ""
  | .taskListMarker _ => ""
  | .image _ content => text_content_list content
  | .footnoteDefinition _ content => text_content_list content
  | .metadata content => text_content_list content
  | .table _ content => text_content_list content
  | .tableHead content => text_content_list content
  | .tableRow content => text_content_list content
  | .tableCell content => text_content_list content

/-- Concatenated `text_content` of a list of nodes. -/
def text_content_list : List MarkdownNode → String
  | [] => ""
  | c :: cs => text_content c ++ text_content_list cs

end

/-- The `heading level` conversion in `Tag::Heading` handling: a total
match from `HeadingLevel` to the `u8` attribute. -/
def heading_level_to_u8 (level : HeadingLevel) : Nat :=
  level.toNat

/-- The single fallible integer conversion of the deserializer:
`order.try_into()` from the tokenizer's `u64` into the attribute's `usize`,
whose width (`bits`) is platform-dependent.  Failure is mapped to
`LevelMismatch` by the `#[from] TryFromIntError` conversion. -/
def try_into_usize (bits order : Nat) : Except FromMarkdownError Nat :=
  if order < 2 ^ bits then .ok order else .error .levelMismatch

/-- The deserializer state: the frame stack (head = top) and the ambient
mark set. -/
structure DState where
  stack : List (List MarkdownNode × Attrs)
  mark_set : List MarkdownMark

/-- `MarkdownDeserializer::add_content`: append a node to the top frame. -/
def add_content (s : DState) (node : MarkdownNode) : Except FromMarkdownError DState :=
  match s.stack with
  | [] => .error .stackEmpty
  | (children, attrs) :: rest =>
    .ok { s with stack := (children ++ [node], attrs) :: rest }

/-- `MarkdownDeserializer::pop_stack`. -/
def pop_stack (s : DState) :
    Except FromMarkdownError ((List MarkdownNode × Attrs) × DState) :=
  match s.stack with
  | [] => .error .stackEmpty
  | frame :: rest => .ok (frame, { s with stack := rest })

/-- `MarkdownDeserializer::push_stack`. -/
def push_stack (s : DState) (attrs : Attrs) : DState :=
  { s with stack := ([], attrs) :: s.stack }

/-- The code-block / footnote-definition / metadata post-processing step:
strip a single trailing newline from the last child if it is a text node
(`content.last_mut()` handling). -/
def strip_last_text_newline (content : List MarkdownNode) : List MarkdownNode :=
  match content.getLast? with
  | some (.text tn) =>
    content.dropLast ++ [.text ⟨remove_last_newline tn.text, tn.marks⟩]
  | _ => content

/-- One iteration of the deserializer's event loop
(`MarkdownDeserializer::deserialize`, the `match event` body). -/
def process_event (bits : Nat) (s : DState) (event : Event) :
    Except FromMarkdownError DState :=
  match event with
  | .start tag =>
    match tag with
    | .paragraph => .ok (push_stack s .paragraph)
    | .heading level =>
      .ok (push_stack s (.heading ⟨heading_level_to_u8 level⟩))
    | .blockQuote => .ok (push_stack s .blockquote)
    | .codeBlock kind =>
      let params :=
        match kind with
        | .fenced params => params
        | .indented => ""
      .ok (push_stack s (.codeBlock ⟨params⟩))
    | .list ord =>
      match ord with
      | some order => do
        let o ← try_into_usize bits order
        .ok (push_stack s (.orderedList ⟨o, false⟩))
      | none => .ok (push_stack s (.bulletList ⟨false⟩))
    | .item => .ok (push_stack s .listItem)
    | .footnoteDefinition label =>
      .ok (push_stack s (.footnoteDefinition ⟨label⟩))
    | .table alignment => .ok (push_stack s (.table ⟨alignment⟩))
    | .tableHead => .ok (push_stack s .tableHead)
    | .tableRow => .ok (push_stack s .tableRow)
    | .tableCell => .ok (push_stack s .tableCell)
    | .emphasis => .ok { s with mark_set := markset_add s.mark_set .em }
    | .strong => .ok { s with mark_set := markset_add s.mark_set .strong }
    | .strikethrough =>
      .ok { s with mark_set := markset_add s.mark_set .strikethrough }
    | .htmlBlock => .ok s
    | .metadataBlock _ => .ok (push_stack s .metadata)
    | .link destUrl title =>
      .ok { s with mark_set := markset_add s.mark_set (.link ⟨destUrl, title⟩) }
    | .image destUrl title =>
      .ok (push_stack s (.image ⟨destUrl, "", title⟩))
  | .endTag tag =>
    match tag with
    | .paragraph => do
      let ((content, attrs), s) ← pop_stack s
      match attrs with
      | .paragraph => add_content s (.paragraph content)
      | _ => .error (.misplacedEndTag "Paragraph" attrs)
    | .heading _ => do
      let ((content, attrs), s) ← pop_stack s
      match attrs with
      | .heading a => add_content s (.heading a content)
      | _ => .error (.misplacedEndTag "Heading" attrs)
    | .blockQuote => do
      let ((content, attrs), s) ← pop_stack s
      match attrs with
      | .blockquote => add_content s (.blockquote content)
      | _ => .error (.misplacedEndTag "BlockQuote" attrs)
    | .codeBlock => do
      let ((content, attrs), s) ← pop_stack s
      match attrs with
      | .codeBlock a =>
        add_content s (.codeBlock a (strip_last_text_newline content))
      | _ => .error (.misplacedEndTag "CodeBlock" attrs)
    | .list _ => do
      let ((content, attrs), s) ← pop_stack s
      match attrs with
      | .bulletList a => add_content s (.bulletList a content)
      | .orderedList a => add_content s (.orderedList a content)
      | _ => .error (.misplacedEndTag "List" attrs)
    | .item => do
      let ((content, attrs), s) ← pop_stack s
      match attrs with
      | .listItem => add_content s (.listItem content)
      | _ => .ok s
    | .footnoteDefinition => do
      let ((content, attrs), s) ← pop_stack s
      match attrs with
      | .footnoteDefinition a =>
        add_content s (.footnoteDefinition a (strip_last_text_newline content))
      | _ => .error (.misplacedEndTag "FootnoteDefinition" attrs)
    | .table => do
      let ((content, attrs), s) ← pop_stack s
      match attrs with
      | .table a => add_content s (.table a content)
      | _ => .error (.misplacedEndTag "Table" attrs)
    | .tableHead => do
      let ((content, attrs), s) ← pop_stack s
      match attrs with
      | .tableHead => add_content s (.tableHead content)
      | _ => .error (.misplacedEndTag "TableHead" attrs)
    | .tableRow => do
      let ((content, attrs), s) ← pop_stack s
      match attrs with
      | .tableRow => add_content s (.tableRow content)
      | _ => .error (.misplacedEndTag "TableRow" attrs)
    | .tableCell => do
      let ((content, attrs), s) ← pop_stack s
      match attrs with
      | .tableCell => add_content s (.tableCell content)
      | _ => .error (.misplacedEndTag "TableCell" attrs)
    | .htmlBlock => .ok s
    | .metadataBlock _ => do
      let ((content, attrs), s) ← pop_stack s
      match attrs with
      | .metadata =>
        add_content s (.metadata (strip_last_text_newline content))
      | _ => .error (.misplacedEndTag "Metadata" attrs)
    | .emphasis => .ok { s with mark_set := markset_remove s.mark_set .em }
    | .strong => .ok { s with mark_set := markset_remove s.mark_set .strong }
    | .strikethrough =>
      .ok { s with mark_set := markset_remove s.mark_set .strikethrough }
    | .link =>
      .ok { s with mark_set :=
        markset_remove_matching s.mark_set fun m =>
          match m with
          | .link _ => true
          | _ => false }
    | .image => do
      let ((content, attrs), s) ← pop_stack s
      match attrs with
      | .image a =>
        let alt := text_content_list content
        add_content s (.image ⟨a.src, alt, a.title⟩ [])
      | _ => .error (.misplacedEndTag "Image" attrs)
  | .text t =>
    add_content s (.text ⟨t, s.mark_set⟩)
  | .code t =>
    add_content s (.text ⟨t, markset_add s.mark_set .code⟩)
  | .inlineHtml t =>
    add_content s (.text ⟨t, markset_add s.mark_set .htmlTag⟩)
  | .html t =>
    add_content s (.text ⟨t, markset_add s.mark_set .htmlTag⟩)
  | .footnoteReference label =>
    add_content s (.text ⟨label, markset_add s.mark_set (.footnote ⟨label⟩)⟩)
  | .softBreak =>
    add_content s (.text ⟨"\n", s.mark_set⟩)
  | .hardBreak => add_content s .hardBreak
  | .rule => add_content s .horizontalRule
  | .taskListMarker checked => add_content s (.taskListMarker ⟨checked⟩)

/-- `MarkdownDeserializer::deserialize` over an explicit event stream: push
the `Doc` frame, fold the event loop, then pop and require the `Doc`
frame. -/
def deserialize (bits : Nat) (events : List Event) :
    Except FromMarkdownError MarkdownNode := do
  let init : DState := { stack := [([], .doc)], mark_set := [] }
  let final ← events.foldlM (process_event bits) init
  let ((content, attrs), _) ← pop_stack final
  match attrs with
  | .doc => .ok (.doc content)
  | _ => .error (.misplacedEndTag "Doc" attrs)

/-! ## The serializer (`src/markdown/to_markdown.rs`)

`MarkdownSerializer` is an iterator; its recursive `next` is modelled as a
non-recursive single-step function `ser_step` (the internal `self.next()`
tail calls become an explicit `cont` result and the Rust `panic!`s of
`mark_tag`'s `unimplemented!` arms become `panic`), driven by a
fuel-indexed `ser_run`. -/

/-- `mark_tag` (to_markdown.rs): the start tag of a stack-representable
mark; `none` models the `unimplemented!` panic for the self-closing marks
that are never pushed on the mark stack. -/
def mark_tag : MarkdownMark → Option Tag
  | .strong => some .strong
  | .em => some .emphasis
  | .strikethrough => some .strikethrough
  | .link attrs => some (.link attrs.href attrs.title)
  | .code => none
  | .footnote _ => none
  | .htmlTag => none

/-- `mark_to_start_event` (to_markdown.rs). -/
def mark_to_start_event (mark : MarkdownMark) (text : String) : Event :=
  match mark with
  | .strong => .start .strong
  | .em => .start .emphasis
  | .strikethrough => .start .strikethrough
  | .link attrs => .start (.link attrs.href attrs.title)
  | .code => .code text
  | .footnote _ => .footnoteReference text
  | .htmlTag => .html text

/-- The serializer state: the node worklist (`inner`, head = top), the
open-mark stack (head = top) and the pending-event stack. -/
structure SerState where
  inner : List (MarkdownNode × Nat)
  marks : List MarkdownMark
  stack : List Event

/-- The result of one call to `MarkdownSerializer::next`: either the
iterator is exhausted, or it panics, or it yields an event with a new
state, or it tail-calls itself with a new state (`cont`). -/
inductive SerStep where
  | done
  | panic
  | emit (event : Event) (s : SerState)
  | cont (s : SerState)

/-- `MarkdownSerializer::process_content`: push the revisit entry and the
child (which ends on top), or report that the children are exhausted. -/
def ser_process_content (index : Nat) (content : List MarkdownNode)
    (node : MarkdownNode) (inner : List (MarkdownNode × Nat)) :
    List (MarkdownNode × Nat) × Bool :=
  match content.get? index with
  | some child => ((child, 0) :: (node, index + 1) :: inner, false)
  | none => (inner, true)

/-- `MarkdownSerializer::process_attr_node`; `tag` is the result of the
`map` closure applied to the node's attributes, and `rest` is the state
with the `(node, index)` entry already popped. -/
def ser_process_attr_node (rest : SerState) (node : MarkdownNode)
    (index : Nat) (content : List MarkdownNode) (tag : Tag) : SerStep :=
  if index = 0 then
    match rest.marks with
    | mark :: marksRest =>
      match mark_tag mark with
      | some mtag =>
        .emit (.endTag mtag.to_end)
          { rest with inner := (node, 0) :: rest.inner, marks := marksRest }
      | none => .panic
    | [] =>
      let (inner', last) := ser_process_content index content node rest.inner
      let inner'' := if last then (node, index + 1) :: inner' else inner'
      .emit (.start tag) { rest with inner := inner'' }
  else
    let (inner', last) := ser_process_content index content node rest.inner
    if last then
      match rest.marks with
      | mark :: marksRest =>
        match mark_tag mark with
        | some mtag =>
          .emit (.endTag mtag.to_end)
            { rest with inner := (node, index) :: inner', marks := marksRest }
        | none => .panic
      | [] =>
        match tag with
        | .codeBlock _ =>
          .emit (.text "\n")
            { rest with inner := inner',
                        stack := .endTag tag.to_end :: rest.stack }
        | _ => .emit (.endTag tag.to_end) { rest with inner := inner' }
    else
      .cont { rest with inner := inner' }

/-- The `for mark in &text_node.marks` loop of the `Text` branch: the first
not-yet-open stack-representable mark wins (left), otherwise the last
self-closing mark's event is remembered (right). -/
def ser_text_loop (text : String) (openMarks : List MarkdownMark)
    (custom : Option Event) :
    List MarkdownMark → (MarkdownMark × Tag) ⊕ Option Event
  | [] => .inr custom
  | mark :: restMarks =>
    match mark_to_start_event mark text with
    | .start startTag =>
      if openMarks.contains mark then
        ser_text_loop text openMarks custom restMarks
      else
        .inl (mark, startTag)
    | event => ser_text_loop text openMarks (some event) restMarks

/-- The tail of the `Text` branch after the top-of-stack check: run the
mark loop and emit a start event, the remembered self-closing event, or a
plain text event. -/
def ser_text_emit (rest : SerState) (node : MarkdownNode) (index : Nat)
    (tn : TextNode) : SerStep :=
  match ser_text_loop tn.text rest.marks none tn.marks with
  | .inl (mark, startTag) =>
    .emit (.start startTag)
      { rest with inner := (node, index) :: rest.inner,
                  marks := mark :: rest.marks }
  | .inr (some event) => .emit event rest
  | .inr none => .emit (.text tn.text) rest

/-- The `Text` branch of `MarkdownSerializer::next`: close the top open
mark if the node does not carry it, otherwise run the mark loop. -/
def ser_text_branch (rest : SerState) (node : MarkdownNode) (index : Nat)
    (tn : TextNode) : SerStep :=
  match rest.marks with
  | last :: marksRest =>
    if tn.marks.contains last then
      ser_text_emit rest node index tn
    else
      match mark_tag last with
      | some mtag =>
        .emit (.endTag mtag.to_end)
          { rest with inner := (node, index) :: rest.inner,
                      marks := marksRest }
      | none => .panic
  | [] => ser_text_emit rest node index tn

/-- One call of `MarkdownSerializer::next`. -/
def ser_step (s : SerState) : SerStep :=
  match s.stack with
  | event :: stackRest => .emit event { s with stack := stackRest }
  | [] =>
    match s.inner with
    | [] => .done
    | (node, index) :: innerRest =>
      let rest : SerState := { s with inner := innerRest }
      match node with
      | .doc content =>
        .cont { rest with
          inner := (ser_process_content index content node rest.inner).1 }
      | .heading attrs content =>
        ser_process_attr_node rest node index content
          (.heading
            (match attrs.level with
             | 0 => .h1
             | 1 => .h1
             | 2 => .h2
             | 3 => .h3
             | 4 => .h4
             | 5 => .h5
             | _ => .h6))
      | .codeBlock attrs content =>
        ser_process_attr_node rest node index content
          (.codeBlock (.fenced attrs.params))
      | .text tn => ser_text_branch rest node index tn
      | .blockquote content =>
        ser_process_attr_node rest node index content .blockQuote
      | .paragraph content =>
        ser_process_attr_node rest node index content .paragraph
      | .bulletList _ content =>
        ser_process_attr_node rest node index content (.list none)
      | .orderedList attrs content =>
        ser_process_attr_node rest node index content (.list (some attrs.order))
      | .listItem content =>
        ser_process_attr_node rest node index content .item
      | .horizontalRule => .emit .rule rest
      | .hardBreak => .emit .hardBreak rest
      | .taskListMarker attrs => .emit (.taskListMarker attrs.checked) rest
      | .metadata content =>
        ser_process_attr_node rest node index content
          (.metadataBlock .yamlStyle)
      | .image attrs content =>
        ser_process_attr_node rest node index content
          (.image attrs.src attrs.title)
      | .footnoteDefinition attrs content =>
        ser_process_attr_node rest node index content
          (.footnoteDefinition attrs.label)
      | .table attrs content =>
        ser_process_attr_node rest node index content (.table attrs.alignment)
      | .tableHead content =>
        ser_process_attr_node rest node index content .tableHead
      | .tableRow content =>
        ser_process_attr_node rest node index content .tableRow
      | .tableCell content =>
        ser_process_attr_node rest node index content .tableCell

/-- Fuel-indexed driver of the serializer: the list of events yielded in at
most `fuel` steps (a panic or exhaustion ends the stream). -/
def ser_run : Nat → SerState → List Event
  | 0, _ => []
  | fuel + 1, s =>
    match ser_step s with
    | .done => []
    | .panic => []
    | .cont s' => ser_run fuel s'
    | .emit event s' => event :: ser_run fuel s'

/-- The initial serializer state for a document (`MarkdownSerializer::new`). -/
def ser_init (doc : MarkdownNode) : SerState :=
  { inner := [(doc, 0)], marks := [], stack := [] }

/-! ## Well-nesting of mark events (the checker for claim C4) -/

/-- Is this start tag an inline-mark tag? -/
def mark_start_tag : Tag → Bool
  | .emphasis => true
  | .strong => true
  | .strikethrough => true
  | .link _ _ => true
  | _ => false

/-- Is this end tag an inline-mark end? -/
def mark_end_tag : TagEnd → Bool
  | .emphasis => true
  | .strong => true
  | .strikethrough => true
  | .link => true
  | _ => false

/-- One step of the well-nesting checker: mark starts push, mark ends must
close the most recently opened still-open mark tag, all other events leave
the stack alone; `none` is a nesting violation. -/
def nest_step (st : List Tag) (event : Event) : Option (List Tag) :=
  match event with
  | .start tag => if mark_start_tag tag then some (tag :: st) else some st
  | .endTag tagEnd =>
    if mark_end_tag tagEnd then
      match st with
      | tag :: rest => if tag.to_end = tagEnd then some rest else none
      | [] => none
    else some st
  | _ => some st

/-- The event sequence is well-nested when started with open-tag stack
`st`: no mark end ever closes anything but the top of the stack. -/
def well_nested_from (st : List Tag) : List Event → Bool
  | [] => true
  | event :: events =>
    match nest_step st event with
    | some st' => well_nested_from st' events
    | none => false

/-! ## The text printer (`src/markdown/print_markdown.rs`)

Buffer positions are counted in characters (Rust counts bytes; the two
agree on ASCII).  Rust panics (`unwrap`, `todo!`, usize underflow,
mismatched tags) are modelled as `none`. -/

/-- `s.repeat(n)` for strings. -/
def str_repeat (s : String) (n : Nat) : String :=
  String.join (List.replicate n s)

/-- The side buffer and recorded cell ranges of a table (`TableCtx`);
ranges are half-open `(start, end)` positions into `buffer`. -/
structure TableCtx where
  buffer : String
  header : List (Nat × Nat)
  rows : List (List (Nat × Nat))

/-- `Default::default()` for `TableCtx`. -/
def TableCtx.default : TableCtx :=
  { buffer := "", header := [], rows := [] }

/-- The length of a recorded range (`range.end - range.start`). -/
def range_len (r : Nat × Nat) : Nat :=
  r.2 - r.1

namespace TableCtx

/-- `TableCtx::max_column`: the maximum number of cells over the header and
all rows. -/
def max_column (ctx : TableCtx) : Nat :=
  ((ctx.header :: ctx.rows).map List.length).foldl max 0

/-- The `Ord::max` on `Option<usize>` used by `max_column_length`
(`None` is smaller than any `Some`). -/
def opt_max : Option Nat → Option Nat → Option Nat
  | some a, some b => some (max a b)
  | some a, none => some a
  | none, some b => some b
  | none, none => none

/-- `TableCtx::max_column_length`: for every column index, the maximum of
the recorded cell lengths in that column (header and body), floored at 3;
columns with no recorded cell contribute nothing. -/
def max_column_length (ctx : TableCtx) : List Nat :=
  (List.range ctx.max_column).filterMap fun idx =>
    (opt_max ((ctx.header.get? idx).map range_len)
        (ctx.rows.foldl
          (fun acc row => opt_max acc ((row.get? idx).map range_len))
          none)).map
      fun m => max m 3

end TableCtx

/-- A frame of the printer's tag stack (`StackItem`). -/
structure StackItem where
  tag : Tag
  range : Nat × Nat
  list_counter : Option Nat

/-- The newline policy between blocks (`NewlineStrategy`). -/
inductive NewlineStrategy where
  | none
  | once
  | block
deriving DecidableEq, Repr

/-- The printer state (`Printer`). -/
structure PState where
  buffer : String
  tag_stack : List StackItem
  separate_by_newline : NewlineStrategy
  codeblock_backticks : Nat
  table_context : Option TableCtx

namespace PState

/-- `Printer::buffer`: the table side buffer while a table is open,
otherwise the main buffer. -/
def pbuffer (p : PState) : String :=
  match p.table_context with
  | some t => t.buffer
  | none => p.buffer

/-- Write back the active buffer (`Printer::buffer_mut`). -/
def set_buffer (p : PState) (s : String) : PState :=
  match p.table_context with
  | some t => { p with table_context := some { t with buffer := s } }
  | none => { p with buffer := s }

/-- `Printer::print_str`. -/
def print_str (p : PState) (s : String) : PState :=
  p.set_buffer (p.pbuffer ++ s)

/-- `Printer::buffer_len`. -/
def buffer_len (p : PState) : Nat :=
  p.pbuffer.length

/-- Insert a string at a character position of a string
(`String::insert_str`). -/
def insert_at (s : String) (pos : Nat) (ins : String) : String :=
  String.mk (s.data.take pos ++ ins.data ++ s.data.drop pos)

/-- `Printer::insert_str`. -/
def insert_str (p : PState) (pos : Nat) (s : String) : PState :=
  p.set_buffer (insert_at p.pbuffer pos s)

/-- `Printer::print_newline`: write the pending separation and reset it. -/
def print_newline (p : PState) : PState :=
  let p' :=
    match p.separate_by_newline with
    | .none => p
    | .once => p.print_str "\n"
    | .block => p.print_str "\n\n"
  { p' with separate_by_newline := .none }

/-- `Printer::print_block`. -/
def print_block (p : PState) (s : String) : PState :=
  p.print_newline.print_str s

/-- `Printer::tag_is_block`. -/
def tag_is_block (p : PState) : PState :=
  { p with separate_by_newline := .block }

/-- `Printer::in_tag`. -/
def in_tag (p : PState) (f : Tag → Bool) : Bool :=
  p.tag_stack.any fun it => f it.tag

end PState

/-- The slice `&buffer[range]` of the table side buffer. -/
def slice (buf : String) (r : Nat × Nat) : String :=
  String.mk ((buf.data.drop r.1).take (r.2 - r.1))

/-- `Printer::print_table_row` as a pure string: one `| cell` segment per
column width (missing cells pad with spaces), closed by `|\n`. -/
def table_row_string (widths : List Nat) (row : List (Nat × Nat))
    (buf : String) : String :=
  match widths, row with
  | [], _ => "|\n"
  | w :: ws, [] => "| " ++ str_repeat " " (w + 1) ++ table_row_string ws [] buf
  | w :: ws, r :: rs =>
    let source := slice buf r
    let len := range_len r
    let diff := if w > len then w - len else 0
    "| " ++ source ++ str_repeat " " (diff + 1) ++ table_row_string ws rs buf

/-- The separator row emitted after the table header. -/
def sep_row_string (widths : List Nat) : String :=
  String.join (widths.map fun w => "| " ++ str_repeat "-" w ++ " ") ++ "|\n"

/-- The trailing-newline check of the `Text` branch at the character
level (equivalent to the source's `String::ends_with` with a newline,
written on `data` so that it evaluates by reduction). -/
def ends_with_newline (t : String) : Bool :=
  match t.data.getLast? with
  | some c => c = '\n'
  | none => false

/-- The per-event maximal backtick-run counter (the `chars().fold` of the
`Text` and `Code` branches). -/
def max_backtick_run (t : String) : Nat :=
  (t.data.foldl
    (fun (acc : Nat × Nat) c =>
      if c = '`' then (acc.1 + 1, max (acc.1 + 1) acc.2) else (0, acc.2))
    (0, 0)).2

/-- `Printer::print_tag_start`; `none` models a Rust panic (`todo!`,
`unwrap` on an absent list/table context, usize underflow). -/
def print_tag_start (p : PState) (start : Tag) : Option PState :=
  let range_before := p.buffer_len
  match start with
  | .paragraph =>
    let p := p.print_newline
    some { p with tag_stack := ⟨start, (range_before, p.buffer_len), none⟩ :: p.tag_stack }
  | .heading level =>
    let p := p.print_block (str_repeat "#" level.toNat ++ " ")
    some { p with tag_stack := ⟨start, (range_before, p.buffer_len), none⟩ :: p.tag_stack }
  | .blockQuote =>
    let p := p.print_block "> "
    some { p with tag_stack := ⟨start, (range_before, p.buffer_len), none⟩ :: p.tag_stack }
  | .codeBlock .indented => none
  | .codeBlock (.fenced lang) =>
    let p := p.print_newline
    let range_before := p.buffer_len
    let p := { p with codeblock_backticks := 0 }
    let p := p.print_str (lang ++ "\n")
    some { p with tag_stack := ⟨start, (range_before, p.buffer_len), none⟩ :: p.tag_stack }
  | .htmlBlock => none
  | .list from_ =>
    let p := p.print_newline
    some { p with tag_stack := ⟨start, (range_before, p.buffer_len), from_⟩ :: p.tag_stack }
  | .item =>
    let p := p.print_newline
    let listCount := p.tag_stack.countP fun it =>
      match it.tag with
      | .list _ => true
      | _ => false
    if listCount = 0 then
      none
    else
      match p.tag_stack with
      | [] => none
      | top :: stackRest =>
        let p := p.print_str (str_repeat " " ((listCount - 1) * 2))
        let updated :=
          match top.list_counter with
          | some from_ =>
            let p := p.print_str (toString from_ ++ ". ")
            { p with tag_stack := { top with list_counter := some (from_ + 1) } :: stackRest }
          | none =>
            let p := p.print_str "- "
            { p with tag_stack := top :: stackRest }
        let p := { updated with separate_by_newline := .once }
        some { p with tag_stack := ⟨start, (range_before, p.buffer_len), none⟩ :: p.tag_stack }
  | .footnoteDefinition label =>
    let p := p.print_block ("[^" ++ label ++ "]: ")
    some { p with tag_stack := ⟨start, (range_before, p.buffer_len), none⟩ :: p.tag_stack }
  | .table _ =>
    let p := p.print_newline
    let p := { p with table_context := some TableCtx.default }
    some { p with tag_stack := ⟨start, (range_before, p.buffer_len), none⟩ :: p.tag_stack }
  | .tableHead =>
    some { p with tag_stack := ⟨start, (range_before, p.buffer_len), none⟩ :: p.tag_stack }
  | .tableRow =>
    match p.table_context with
    | none => none
    | some ctx =>
      let p := { p with table_context := some { ctx with rows := ctx.rows ++ [[]] } }
      some { p with tag_stack := ⟨start, (range_before, p.buffer_len), none⟩ :: p.tag_stack }
  | .tableCell =>
    some { p with tag_stack := ⟨start, (range_before, p.buffer_len), none⟩ :: p.tag_stack }
  | .emphasis =>
    let p := p.print_str "_"
    some { p with tag_stack := ⟨start, (range_before, p.buffer_len), none⟩ :: p.tag_stack }
  | .strong =>
    let p := p.print_str "**"
    some { p with tag_stack := ⟨start, (range_before, p.buffer_len), none⟩ :: p.tag_stack }
  | .strikethrough =>
    let p := p.print_str "~"
    some { p with tag_stack := ⟨start, (range_before, p.buffer_len), none⟩ :: p.tag_stack }
  | .link _ _ =>
    let p := p.print_str "["
    some { p with tag_stack := ⟨start, (range_before, p.buffer_len), none⟩ :: p.tag_stack }
  | .image _ _ =>
    let p := p.print_str "!["
    some { p with tag_stack := ⟨start, (range_before, p.buffer_len), none⟩ :: p.tag_stack }
  | .metadataBlock .yamlStyle =>
    let p := p.print_newline
    let p := p.print_str "---\n"
    some { p with tag_stack := ⟨start, (range_before, p.buffer_len), none⟩ :: p.tag_stack }
  | .metadataBlock .plusesStyle => none

/-- `Printer::print_tag_end`; `none` models a Rust panic (`unwrap` on an
empty stack or absent table context, `todo!`, the mismatched-tag
`panic!`). -/
def print_tag_end (p : PState) (tagEnd : TagEnd) : Option PState :=
  match p.tag_stack with
  | [] => none
  | top :: stackRest =>
    let p := { p with tag_stack := stackRest }
    match top.tag, tagEnd with
    | .paragraph, .paragraph => some p.tag_is_block
    | .heading _, .heading _ => some { p with separate_by_newline := .once }
    | .blockQuote, .blockQuote => some p.tag_is_block
    | .codeBlock (.fenced _), .codeBlock =>
      let ticks := str_repeat "`" (max p.codeblock_backticks 2 + 1)
      let p := p.insert_str top.range.1 ticks
      let p := p.print_str ticks
      some p.tag_is_block
    | .codeBlock .indented, .codeBlock => none
    | .htmlBlock, .htmlBlock => none
    | .list _, .list _ => some p.tag_is_block
    | .item, .item => some { p with separate_by_newline := .once }
    | .footnoteDefinition _, .footnoteDefinition =>
      some { p with separate_by_newline := .once }
    | .table _, .table =>
      match p.table_context with
      | none => none
      | some ctx =>
        let p := { p with table_context := (none : Option TableCtx) }
        let widths := ctx.max_column_length
        let p := p.print_str (table_row_string widths ctx.header ctx.buffer)
        let p := p.print_str (sep_row_string widths)
        let p := p.print_str
          (String.join (ctx.rows.map fun row => table_row_string widths row ctx.buffer))
        some p.tag_is_block
    | .tableHead, .tableHead => some p
    | .tableRow, .tableRow => some p
    | .tableCell, .tableCell =>
      let range := (top.range.1, p.buffer_len)
      let inHead := p.in_tag fun t => t = .tableHead
      match p.table_context with
      | none => none
      | some ctx =>
        if inHead then
          some { p with table_context := some { ctx with header := ctx.header ++ [range] } }
        else
          match ctx.rows.getLast? with
          | none => none
          | some lastRow =>
            let newRows := ctx.rows.dropLast ++ [lastRow ++ [range]]
            some { p with table_context := some { ctx with rows := newRows } }
    | .emphasis, .emphasis => some (p.print_str "_")
    | .strong, .strong => some (p.print_str "**")
    | .strikethrough, .strikethrough => some (p.print_str "~")
    | .link destUrl title, .link =>
      let titlePart := if title.trim = "" then "" else " \"" ++ title ++ "\""
      some (p.print_str ("](" ++ destUrl ++ titlePart ++ ")"))
    | .image destUrl title, .image =>
      let titlePart := if title.trim = "" then "" else " \"" ++ title ++ "\""
      some (p.print_str ("](" ++ destUrl ++ titlePart ++ ")"))
    | .metadataBlock style, .metadataBlock _ =>
      let p :=
        match style with
        | .yamlStyle => p.print_str "\n---"
        | .plusesStyle => p.print_str "\n+++"
      some p.tag_is_block
    | _, _ => none

/-- `Printer::print_event`. -/
def print_event (p : PState) (event : Event) : Option PState :=
  match event with
  | .start tag => print_tag_start p tag
  | .endTag tagEnd => print_tag_end p tagEnd
  | .text t =>
    let p := p.print_str t
    let p :=
      if ends_with_newline t then
        if p.in_tag (fun tag => tag = .blockQuote) then p.print_str "> " else p
      else p
    let p :=
      if p.in_tag (fun tag =>
          match tag with
          | .codeBlock (.fenced _) => true
          | _ => false) then
        { p with codeblock_backticks := max p.codeblock_backticks (max_backtick_run t) }
      else p
    some p
  | .code c =>
    let ticks := str_repeat "`" (max_backtick_run c + 1)
    some (p.print_str (ticks ++ c ++ ticks))
  | .html h => some (p.print_block h)
  | .inlineHtml h => some (p.print_str h)
  | .footnoteReference r => some (p.print_str ("[^" ++ r ++ "]"))
  | .softBreak => some (p.print_str "\n")
  | .hardBreak => some (p.print_str "  \n")
  | .rule => some (p.print_block "---").tag_is_block
  | .taskListMarker true => some (p.print_str "[x] ")
  | .taskListMarker false => some (p.print_str "[ ] ")

/-- The initial printer state (`Printer::print` with an empty caller
buffer). -/
def pinit : PState :=
  { buffer := "", tag_stack := [], separate_by_newline := .none,
    codeblock_backticks := 0, table_context := none }

/-- `Printer::print`: fold the printer over an event stream; `none` when
any event panics. -/
def run_printer (p : PState) (events : List Event) : Option PState :=
  events.foldlM print_event p

/-! ## Auxiliary definitions for the claim statements -/

/-- Concatenation of a list of strings. -/
def str_concat : List String → String
  | [] => ""
  | s :: rest => s ++ str_concat rest

/-- The event stream of one fenced code block whose text arrives as the
given list of `Text` events. -/
def cb_events (lang : String) (texts : List String) : List Event :=
  .start (.codeBlock (.fenced lang)) :: (texts.map Event.text ++ [.endTag .codeBlock])

/-- The largest backtick run observed within any single text event. -/
def max_event_backtick_run (texts : List String) : Nat :=
  texts.foldl (fun acc t => max acc (max_backtick_run t)) 0

/-- The end tags that pop a frame off the deserializer stack. -/
def is_frame_closing_end : TagEnd → Bool
  | .paragraph => true
  | .heading _ => true
  | .blockQuote => true
  | .codeBlock => true
  | .list _ => true
  | .item => true
  | .footnoteDefinition => true
  | .table => true
  | .tableHead => true
  | .tableRow => true
  | .tableCell => true
  | .metadataBlock _ => true
  | .image => true
  | .emphasis => false
  | .strong => false
  | .strikethrough => false
  | .link => false
  | .htmlBlock => false

/-- The kind string that the deserializer reports for each end tag in a
`MisplacedEndTag` error. -/
def end_tag_kind : TagEnd → String
  | .paragraph => "Paragraph"
  | .heading _ => "Heading"
  | .blockQuote => "BlockQuote"
  | .codeBlock => "CodeBlock"
  | .list _ => "List"
  | .item => "Item"
  | .footnoteDefinition => "FootnoteDefinition"
  | .table => "Table"
  | .tableHead => "TableHead"
  | .tableRow => "TableRow"
  | .tableCell => "TableCell"
  | .metadataBlock _ => "Metadata"
  | .image => "Image"
  | _ => ""

/-- Does the popped frame's kind match the end tag being processed? -/
def frame_matches : TagEnd → Attrs → Bool
  | .paragraph, .paragraph => true
  | .heading _, .heading _ => true
  | .blockQuote, .blockquote => true
  | .codeBlock, .codeBlock _ => true
  | .list _, .bulletList _ => true
  | .list _, .orderedList _ => true
  | .item, .listItem => true
  | .footnoteDefinition, .footnoteDefinition _ => true
  | .table, .table _ => true
  | .tableHead, .tableHead => true
  | .tableRow, .tableRow => true
  | .tableCell, .tableCell => true
  | .metadataBlock _, .metadata => true
  | .image, .image _ => true
  | _, _ => false

/-- Is this event a heading start? (Used to state that a stream contains no
heading event.) -/
def is_heading_event : Event → Bool
  | .start (.heading _) => true
  | .endTag (.heading _) => true
  | _ => false

/-- The open-tag stack corresponding to the serializer's mark stack. -/
def open_mark_tags (marks : List MarkdownMark) : List Tag :=
  marks.filterMap mark_tag

/-- Is this event a mark start or a mark end? -/
def is_mark_event : Event → Bool
  | .start tag => mark_start_tag tag
  | .endTag tagEnd => mark_end_tag tagEnd
  | _ => false

/-- The serializer-state invariant: every open mark is stack-representable
(so `mark_tag` cannot panic) and every pending event on the side stack is
the synthetic code-block end. -/
def ser_inv (s : SerState) : Prop :=
  (∀ m ∈ s.marks, (mark_tag m).isSome) ∧
  (∀ e ∈ s.stack, e = Event.endTag TagEnd.codeBlock)

/-- Following the spec's wording for claim C9: a column's width is the
maximum of 3 and the length of the widest recorded cell in that column
across the header row and all body rows. -/
def spec_column_width (ctx : TableCtx) (idx : Nat) : Nat :=
  max 3
    (((ctx.header :: ctx.rows).filterMap fun row =>
        (row.get? idx).map range_len).foldl max 0)

/-! ## Claim C5: the `compatible` table -/

/-- Claim C5 counterexample: the claim states that `BlockPlus`, `BlockStar`
and `ParagraphBlockStar` are mutually compatible, but
`compatible(ParagraphBlockStar, BlockStar)` is `false` in the source (the
other direction holds, so the relation is not even symmetric there). -/
theorem c5_counterexample :
    MarkdownContentMatch.compatible .paragraphBlockStar .blockStar = false ∧
    MarkdownContentMatch.compatible .blockStar .paragraphBlockStar = true ∧
    MarkdownContentMatch.compatible .blockPlus .blockStar = true := by
  decide

/-- Claim C5 (amended): the `compatible` relation equals exactly this
table: `Star` is compatible with every category; `InlineStar`,
`OrTextImageStar` and `TextStar` are mutually compatible; `BlockPlus` and
`BlockStar` are each compatible with `BlockPlus`, `BlockStar` and
`ParagraphBlockStar`, while `ParagraphBlockStar` is compatible only with
`BlockPlus` and `ParagraphBlockStar` (not with `BlockStar`);
`ListItemPlus` and `ListItemStar` are mutually compatible; `Empty` is
compatible with nothing. -/
theorem c5_compatible_table :
    ∀ a b : MarkdownContentMatch,
      a.compatible b = true ↔
        (a = .star ∨
          ((a = .inlineStar ∨ a = .orTextImageStar ∨ a = .textStar) ∧
            (b = .inlineStar ∨ b = .orTextImageStar ∨ b = .textStar)) ∨
          ((a = .blockPlus ∨ a = .blockStar) ∧
            (b = .blockPlus ∨ b = .blockStar ∨ b = .paragraphBlockStar)) ∨
          (a = .paragraphBlockStar ∧ (b = .blockPlus ∨ b = .paragraphBlockStar)) ∨
          ((a = .listItemPlus ∨ a = .listItemStar) ∧
            (b = .listItemPlus ∨ b = .listItemStar))) := by
  intro a b
  cases a <;> cases b <;> decide

/-! ## Claim C8: the empty fragment -/

/-- Claim C8: the empty fragment is valid content for a node type exactly
when its content grammar is not `+`-quantified: `valid_content` on the
empty fragment equals `valid_end` of the starting symbol, which is false
precisely for `BlockPlus` and `ListItemPlus`; in particular the empty
fragment is invalid for `BulletList`, `OrderedList`, `Blockquote` and
`Table` and valid for the `*`-quantified and `Empty` grammars. -/
theorem c8_empty_fragment (N : MarkdownNodeType) :
    (N.valid_content [] = true ↔
      N.content_match ≠ .blockPlus ∧ N.content_match ≠ .listItemPlus) ∧
    N.valid_content [] = N.content_match.valid_end ∧
    MarkdownNodeType.valid_content .bulletList [] = false ∧
    MarkdownNodeType.valid_content .orderedList [] = false ∧
    MarkdownNodeType.valid_content .blockquote [] = false ∧
    MarkdownNodeType.valid_content .table [] = false ∧
    MarkdownNodeType.valid_content .doc [] = true ∧
    MarkdownNodeType.valid_content .paragraph [] = true ∧
    MarkdownNodeType.valid_content .heading [] = true ∧
    MarkdownNodeType.valid_content .codeBlock [] = true ∧
    MarkdownNodeType.valid_content .listItem [] = true ∧
    MarkdownNodeType.valid_content .text [] = true := by
  cases N
  case html inline => cases inline <;> decide
  all_goals decide

/-! ## Claim C2: `valid_content` and the mark check -/

/-- Claim C2 counterexample: the claim states that a fragment containing a
`Text` child carrying a mark is invalid content for `CodeBlock` (whose
`allow_marks` is false), but `valid_content` accepts it: `Node::marks`
returns `None` for every markdown node, so the mark check inside
`valid_content` can never reject. -/
theorem c2_counterexample :
    MarkdownNodeType.valid_content .codeBlock
      [.text ⟨"x", [.strong]⟩] = true ∧
    MarkdownNodeType._allow_marks .codeBlock = false ∧
    MarkdownNode.marks (.text ⟨"x", [.strong]⟩) = none := by
  exact ⟨rfl, rfl, rfl⟩

/-- Helper: the mark check inside `valid_content` is vacuous, because
`MarkdownNode::marks` is `none` for every node. -/
theorem valid_content_marks_check_vacuous (t : MarkdownNodeType) (F : Fragment) :
    (F.all fun child =>
      !((child.marks.filter fun ms => !(t.allow_marks ms)).isSome)) = true := by
  simp [MarkdownNode.marks]

/-- Claim C2 (amended): `valid_content(N, F)` is true iff folding
`match_type` over all of `F`'s children from `N.content_match()` succeeds
and reaches a state whose `valid_end` is true; the allow-marks conjunct
never rejects anything because `MarkdownNode::marks` returns `None` for
every node (including `Text` nodes that carry marks), so a fragment with a
marked `Text` child is still valid content for a node type whose
`allow_marks` is false. -/
theorem c2_valid_content (N : MarkdownNodeType) (F : Fragment) :
    N.valid_content F = true ↔
      ∃ m, N.content_match.match_fragment F = some m ∧ m.valid_end = true := by
  unfold MarkdownNodeType.valid_content
  cases h : N.content_match.match_fragment F with
  | none => simp
  | some m =>
    rw [valid_content_marks_check_vacuous]
    simp

/-! ## Claim C10: the two block predicates -/

/-- Claim C10: the node-level `MarkdownNode::is_block` and the type-level
`MarkdownNodeType::is_block` disagree on exactly the kinds `Heading`,
`ListItem`, `TableHead`, `TableRow` and `TableCell` (node-level true,
type-level false) and agree on every other node kind; consequently the
grammar's `BlockPlus`/`BlockStar` categories do not accept `Heading` or
`ListItem` children. -/
theorem c10_block_predicates (n : MarkdownNode) :
    ((n.is_block = true ∧ n.node_type.is_block = false) ↔
      (n.node_type = .heading ∨ n.node_type = .listItem ∨
        n.node_type = .tableHead ∨ n.node_type = .tableRow ∨
        n.node_type = .tableCell)) ∧
    (n.is_block = n.node_type.is_block ↔
      ¬(n.node_type = .heading ∨ n.node_type = .listItem ∨
        n.node_type = .tableHead ∨ n.node_type = .tableRow ∨
        n.node_type = .tableCell)) ∧
    MarkdownContentMatch.match_type .blockPlus .heading = none ∧
    MarkdownContentMatch.match_type .blockStar .heading = none ∧
    MarkdownContentMatch.match_type .blockPlus .listItem = none ∧
    MarkdownContentMatch.match_type .blockStar .listItem = none := by
  cases n <;>
    simp [MarkdownNode.is_block, MarkdownNode.node_type,
      MarkdownNodeType.is_block, MarkdownContentMatch.match_type, then_some]

/-! ## Claim C3: mismatched end tags -/

/-- Claim C3 counterexample: the claim states that every mismatched end tag
aborts with `MisplacedEndTag`, and that a `Heading` end closing a
`Paragraph` frame yields `MisplacedEndTag("Paragraph", Heading(...))`.
Both parts fail on the code: that input yields
`MisplacedEndTag("Heading", Paragraph)` (the end event's kind first, the
popped frame's attrs second), and an `Item` end closing a `Paragraph`
frame is silently dropped — the parse succeeds with an empty document. -/
theorem c3_counterexample :
    deserialize 64 [.start .paragraph, .endTag (.heading .h1)] =
      .error (.misplacedEndTag "Heading" .paragraph) ∧
    ("Heading" : String) ≠ "Paragraph" ∧
    deserialize 64 [.start .paragraph, .endTag .item] = .ok (.doc []) := by
  refine ⟨rfl, by decide, rfl⟩

/-- Claim C3 (amended): for every frame-closing end tag except
`TagEnd::Item`, a mismatch between the end tag's kind and the popped
frame's kind aborts with `MisplacedEndTag(end kind, popped attrs)` — the
first component is the kind of the end event being processed, the second
the actually popped frame's attrs (so a `Heading` end closing a
`Paragraph` frame yields `MisplacedEndTag("Heading", Paragraph)`); a
mismatched `TagEnd::Item`, however, silently drops the popped frame and
continues. -/
theorem c3_mismatched_end (bits : Nat) (children : List MarkdownNode)
    (attrs : Attrs) (rest : List (List MarkdownNode × Attrs))
    (markSet : List MarkdownMark) (t : TagEnd)
    (h1 : is_frame_closing_end t = true)
    (h2 : frame_matches t attrs = false) :
    process_event bits ⟨(children, attrs) :: rest, markSet⟩ (.endTag t) =
      if t = .item then .ok ⟨rest, markSet⟩
      else .error (.misplacedEndTag (end_tag_kind t) attrs) := by
  cases t <;> cases attrs <;>
    first
      | rfl
      | (simp only [frame_matches] at h2; exact Bool.noConfusion h2)
      | (simp only [is_frame_closing_end] at h1; exact Bool.noConfusion h1)

/-- Claim C3 witness: the amended theorem at the concrete mismatches of the
claim (a `Heading` end closing a `Paragraph` frame, and an `Item` end
closing a `Paragraph` frame). -/
theorem c3_mismatched_end_witness :
    (is_frame_closing_end (.heading .h1) = true ∧
      frame_matches (.heading .h1) .paragraph = false ∧
      process_event 64 ⟨[([], .paragraph)], []⟩ (.endTag (.heading .h1)) =
        .error (.misplacedEndTag "Heading" .paragraph)) ∧
    (is_frame_closing_end .item = true ∧
      frame_matches .item .paragraph = false ∧
      process_event 64 ⟨[([], .paragraph)], []⟩ (.endTag .item) =
        .ok ⟨[], []⟩) := by
  constructor
  · refine ⟨by decide, by decide, ?_⟩
    have h := c3_mismatched_end 64 [] .paragraph [] [] (.heading .h1)
      (by decide) (by decide)
    simpa using h
  · refine ⟨by decide, by decide, ?_⟩
    have h := c3_mismatched_end 64 [] .paragraph [] [] .item
      (by decide) (by decide)
    simpa using h

/-! ## Claim C7: which events produce `LevelMismatch` -/

/-- Helper: `add_content` never fails with `LevelMismatch` (its only error
is `StackEmpty`). -/
theorem add_content_no_level (s : DState) (n : MarkdownNode) :
    add_content s n ≠ .error .levelMismatch := by
  unfold add_content
  split <;> simp

/-- Helper: no end tag can produce `LevelMismatch`: every end-tag branch
either succeeds, fails with `StackEmpty`, or fails with
`MisplacedEndTag`. -/
theorem process_end_no_level (bits : Nat) (s : DState) (t : TagEnd) :
    process_event bits s (.endTag t) ≠ .error .levelMismatch := by
  obtain ⟨stack, ms⟩ := s
  cases stack with
  | nil =>
    cases t <;>
      first
        | exact fun h => FromMarkdownError.noConfusion (Except.error.inj h)
        | exact fun h => Except.noConfusion h
  | cons frame rest =>
    obtain ⟨children, attrs⟩ := frame
    cases t <;> cases attrs <;>
      first
        | exact add_content_no_level _ _
        | exact fun h => FromMarkdownError.noConfusion (Except.error.inj h)
        | exact fun h => Except.noConfusion h

/-- Claim C7 counterexample: the claim states that `LevelMismatch` occurs
exactly when a heading level fails to convert and that no other kind of
event can produce it; yet a stream containing no heading event at all — a
single ordered-list start whose ordinal overflows a 32-bit `usize` —
produces `LevelMismatch`. -/
theorem c7_counterexample :
    deserialize 32 [.start (.list (some (2 ^ 32)))] = .error .levelMismatch ∧
    ([Event.start (.list (some (2 ^ 32)))].all
      fun event => !(is_heading_event event)) = true := by
  exact ⟨rfl, rfl⟩

/-- Claim C7 (amended): `process_event` returns `LevelMismatch` exactly
when the event is an ordered-list start whose ordinal does not fit in the
`usize` width; heading levels are converted by a total match and can never
produce it (nor can any other event). -/
theorem c7_level_mismatch (bits : Nat) (s : DState) (event : Event) :
    process_event bits s event = .error .levelMismatch ↔
      ∃ order, event = .start (.list (some order)) ∧ 2 ^ bits ≤ order := by
  cases event with
  | start tag =>
    cases tag with
    | list ord =>
      cases ord with
      | none => simp [process_event]
      | some o =>
        by_cases h : o < 2 ^ bits
        · simp only [process_event, try_into_usize, if_pos h]
          constructor
          · intro hc
            exact Except.noConfusion hc
          · rintro ⟨order, heq, hle⟩
            simp only [Event.start.injEq, Tag.list.injEq, Option.some.injEq] at heq
            omega
        · simp only [process_event, try_into_usize, if_neg h]
          constructor
          · intro _
            exact ⟨o, rfl, by omega⟩
          · intro _
            rfl
    | paragraph => simp [process_event]
    | heading level => simp [process_event]
    | blockQuote => simp [process_event]
    | codeBlock kind => simp [process_event]
    | item => simp [process_event]
    | footnoteDefinition label => simp [process_event]
    | table alignment => simp [process_event]
    | tableHead => simp [process_event]
    | tableRow => simp [process_event]
    | tableCell => simp [process_event]
    | emphasis => simp [process_event]
    | strong => simp [process_event]
    | strikethrough => simp [process_event]
    | htmlBlock => simp [process_event]
    | metadataBlock kind => simp [process_event]
    | link destUrl title => simp [process_event]
    | image destUrl title => simp [process_event]
  | endTag t =>
    constructor
    · intro h
      exact absurd h (process_end_no_level bits s t)
    · rintro ⟨order, heq, _⟩
      exact Event.noConfusion heq
  | text t =>
    constructor
    · intro h
      exact absurd h (add_content_no_level _ _)
    · rintro ⟨order, heq, _⟩
      exact Event.noConfusion heq
  | code t =>
    constructor
    · intro h
      exact absurd h (add_content_no_level _ _)
    · rintro ⟨order, heq, _⟩
      exact Event.noConfusion heq
  | inlineHtml t =>
    constructor
    · intro h
      exact absurd h (add_content_no_level _ _)
    · rintro ⟨order, heq, _⟩
      exact Event.noConfusion heq
  | html t =>
    constructor
    · intro h
      exact absurd h (add_content_no_level _ _)
    · rintro ⟨order, heq, _⟩
      exact Event.noConfusion heq
  | footnoteReference label =>
    constructor
    · intro h
      exact absurd h (add_content_no_level _ _)
    · rintro ⟨order, heq, _⟩
      exact Event.noConfusion heq
  | softBreak =>
    constructor
    · intro h
      exact absurd h (add_content_no_level _ _)
    · rintro ⟨order, heq, _⟩
      exact Event.noConfusion heq
  | hardBreak =>
    constructor
    · intro h
      exact absurd h (add_content_no_level _ _)
    · rintro ⟨order, heq, _⟩
      exact Event.noConfusion heq
  | rule =>
    constructor
    · intro h
      exact absurd h (add_content_no_level _ _)
    · rintro ⟨order, heq, _⟩
      exact Event.noConfusion heq
  | taskListMarker checked =>
    constructor
    · intro h
      exact absurd h (add_content_no_level _ _)
    · rintro ⟨order, heq, _⟩
      exact Event.noConfusion heq

/-! ## Claim C4: mark well-nesting of the serializer -/

/-- Helper: the tag of a stack-representable mark is a mark start tag, and
its end is a mark end tag. -/
theorem mark_tag_is_mark (m : MarkdownMark) (t : Tag) (h : mark_tag m = some t) :
    mark_start_tag t = true ∧ mark_end_tag t.to_end = true := by
  cases m <;> simp [mark_tag] at h
  all_goals subst h
  all_goals exact ⟨rfl, rfl⟩

/-- Helper: when `mark_to_start_event` yields a start event, its tag is
exactly `mark_tag` of the mark. -/
theorem mark_start_event_tag (m : MarkdownMark) (text : String) (t : Tag)
    (h : mark_to_start_event m text = .start t) : mark_tag m = some t := by
  cases m <;> simp [mark_to_start_event] at h
  all_goals subst h
  all_goals rfl

/-- Helper: events that are not mark starts or mark ends leave the
well-nesting stack unchanged. -/
theorem nest_step_neutral (st : List Tag) (e : Event)
    (h : is_mark_event e = false) : nest_step st e = some st := by
  cases e <;> simp_all [is_mark_event, nest_step]

/-- Helper: opening a stack-representable mark pushes its tag. -/
theorem open_mark_tags_cons (m : MarkdownMark) (t : Tag)
    (marks : List MarkdownMark) (h : mark_tag m = some t) :
    open_mark_tags (m :: marks) = t :: open_mark_tags marks := by
  simp [open_mark_tags, List.filterMap_cons, h]

/-- Helper: emitting the end event of the top open mark pops exactly that
mark from the well-nesting stack. -/
theorem nest_step_pop (m : MarkdownMark) (t : Tag)
    (marks : List MarkdownMark) (h : mark_tag m = some t) :
    nest_step (open_mark_tags (m :: marks)) (.endTag t.to_end) =
      some (open_mark_tags marks) := by
  rw [open_mark_tags_cons m t marks h]
  simp [nest_step, (mark_tag_is_mark m t h).2]

/-- Helper: when the text-branch mark loop decides to open a mark, that
mark is stack-representable with exactly the returned start tag. -/
theorem ser_text_loop_start (text : String) (openMarks : List MarkdownMark) :
    ∀ (l : List MarkdownMark) (custom : Option Event) (mark : MarkdownMark)
      (startTag : Tag),
      ser_text_loop text openMarks custom l = .inl (mark, startTag) →
      mark_tag mark = some startTag := by
  intro l
  induction l with
  | nil =>
    intro custom mark startTag h
    exact Sum.noConfusion h
  | cons m ms ih =>
    intro custom mark startTag h
    rw [ser_text_loop] at h
    cases hme : mark_to_start_event m text with
    | start stag =>
      simp only [hme] at h
      by_cases hc : openMarks.contains m = true
      · rw [if_pos hc] at h
        exact ih custom mark startTag h
      · rw [if_neg hc] at h
        injection h with hpair
        injection hpair with h1 h2
        subst h1
        subst h2
        exact mark_start_event_tag m text stag hme
    | endTag t => simp only [hme] at h; exact ih _ mark startTag h
    | text s => simp only [hme] at h; exact ih _ mark startTag h
    | code s => simp only [hme] at h; exact ih _ mark startTag h
    | inlineHtml s => simp only [hme] at h; exact ih _ mark startTag h
    | html s => simp only [hme] at h; exact ih _ mark startTag h
    | footnoteReference s => simp only [hme] at h; exact ih _ mark startTag h
    | softBreak => simp only [hme] at h; exact ih _ mark startTag h
    | hardBreak => simp only [hme] at h; exact ih _ mark startTag h
    | rule => simp only [hme] at h; exact ih _ mark startTag h
    | taskListMarker b => simp only [hme] at h; exact ih _ mark startTag h

/-- Helper: when the text-branch mark loop yields a remembered self-closing
event, that event is not a mark start or end. -/
theorem ser_text_loop_custom (text : String) (openMarks : List MarkdownMark) :
    ∀ (l : List MarkdownMark) (custom : Option Event) (e : Event),
      (∀ c, custom = some c → is_mark_event c = false) →
      ser_text_loop text openMarks custom l = .inr (some e) →
      is_mark_event e = false := by
  intro l
  induction l with
  | nil =>
    intro custom e hc h
    have hce : custom = some e := by
      rw [ser_text_loop] at h
      exact Sum.inr.inj h
    exact hc e hce
  | cons m ms ih =>
    intro custom e hc h
    rw [ser_text_loop] at h
    cases hme : mark_to_start_event m text with
    | start stag =>
      simp only [hme] at h
      by_cases hcon : openMarks.contains m = true
      · rw [if_pos hcon] at h
        exact ih custom e hc h
      · rw [if_neg hcon] at h
        exact Sum.noConfusion h
    | endTag t =>
      exact absurd hme (by cases m <;> simp [mark_to_start_event])
    | text s =>
      exact absurd hme (by cases m <;> simp [mark_to_start_event])
    | code s =>
      simp only [hme] at h
      refine ih _ e ?_ h
      intro c hcq
      injection hcq with hcq'
      subst hcq'
      rfl
    | inlineHtml s =>
      exact absurd hme (by cases m <;> simp [mark_to_start_event])
    | html s =>
      simp only [hme] at h
      refine ih _ e ?_ h
      intro c hcq
      injection hcq with hcq'
      subst hcq'
      rfl
    | footnoteReference s =>
      simp only [hme] at h
      refine ih _ e ?_ h
      intro c hcq
      injection hcq with hcq'
      subst hcq'
      rfl
    | softBreak =>
      exact absurd hme (by cases m <;> simp [mark_to_start_event])
    | hardBreak =>
      exact absurd hme (by cases m <;> simp [mark_to_start_event])
    | rule =>
      exact absurd hme (by cases m <;> simp [mark_to_start_event])
    | taskListMarker b =>
      exact absurd hme (by cases m <;> simp [mark_to_start_event])

/-- Helper: an event emitted by `process_attr_node` for a block node (whose
tag is neither a mark start nor a mark end) respects the well-nesting
stack and preserves the serializer invariant. -/
theorem ser_pan_emit (rest : SerState) (node : MarkdownNode) (index : Nat)
    (content : List MarkdownNode) (tag : Tag) (hinv : ser_inv rest)
    (h1 : mark_start_tag tag = false)
    (h2 : mark_end_tag tag.to_end = false) :
    ∀ e s', ser_process_attr_node rest node index content tag = .emit e s' →
      ser_inv s' ∧
        nest_step (open_mark_tags rest.marks) e =
          some (open_mark_tags s'.marks) := by
  intro e s' h
  unfold ser_process_attr_node at h
  by_cases hidx : index = 0
  · rw [if_pos hidx] at h
    cases hm : rest.marks with
    | cons m ms =>
      simp only [hm] at h
      cases ht : mark_tag m with
      | some mtag =>
        simp only [ht] at h
        injection h with he hs
        subst he
        subst hs
        refine ⟨⟨?_, hinv.2⟩, ?_⟩
        · intro x hx
          refine hinv.1 x ?_
          rw [hm]
          exact List.mem_cons_of_mem m hx
        · exact nest_step_pop m mtag ms ht
      | none =>
        simp only [ht] at h
        exact SerStep.noConfusion h
    | nil =>
      simp only [hm] at h
      cases hpc : ser_process_content index content node rest.inner with
      | mk inner' last =>
        simp only [hpc] at h
        injection h with he hs
        subst he
        subst hs
        refine ⟨⟨?_, hinv.2⟩, ?_⟩
        · intro x hx
          exact absurd hx (List.not_mem_nil x)
        · simp [nest_step, h1]
  · rw [if_neg hidx] at h
    cases hpc : ser_process_content index content node rest.inner with
    | mk inner' last =>
      simp only [hpc] at h
      cases last with
      | false =>
        simp only [Bool.false_eq_true, if_false] at h
        exact SerStep.noConfusion h
      | true =>
        simp only [if_true] at h
        cases hm : rest.marks with
        | cons m ms =>
          simp only [hm] at h
          cases ht : mark_tag m with
          | some mtag =>
            simp only [ht] at h
            injection h with he hs
            subst he
            subst hs
            refine ⟨⟨?_, hinv.2⟩, ?_⟩
            · intro x hx
              refine hinv.1 x ?_
              rw [hm]
              exact List.mem_cons_of_mem m hx
            · exact nest_step_pop m mtag ms ht
          | none =>
            simp only [ht] at h
            exact SerStep.noConfusion h
        | nil =>
          simp only [hm] at h
          cases tag with
          | codeBlock kind =>
            injection h with he hs
            subst he
            subst hs
            refine ⟨⟨?_, ?_⟩, ?_⟩
            · intro x hx
              exact absurd hx (List.not_mem_nil x)
            · intro x hx
              rcases List.mem_cons.mp hx with hx | hx
              · rw [hx]
                rfl
              · exact hinv.2 x hx
            · simp [nest_step]
          | paragraph =>
            injection h with he hs
            subst he
            subst hs
            exact ⟨⟨fun x hx => absurd hx (List.not_mem_nil x), hinv.2⟩,
              by simp [nest_step, h2]⟩
          | heading level =>
            injection h with he hs
            subst he
            subst hs
            exact ⟨⟨fun x hx => absurd hx (List.not_mem_nil x), hinv.2⟩,
              by simp [nest_step, h2]⟩
          | blockQuote =>
            injection h with he hs
            subst he
            subst hs
            exact ⟨⟨fun x hx => absurd hx (List.not_mem_nil x), hinv.2⟩,
              by simp [nest_step, h2]⟩
          | list start =>
            injection h with he hs
            subst he
            subst hs
            exact ⟨⟨fun x hx => absurd hx (List.not_mem_nil x), hinv.2⟩,
              by simp [nest_step, h2]⟩
          | item =>
            injection h with he hs
            subst he
            subst hs
            exact ⟨⟨fun x hx => absurd hx (List.not_mem_nil x), hinv.2⟩,
              by simp [nest_step, h2]⟩
          | footnoteDefinition label =>
            injection h with he hs
            subst he
            subst hs
            exact ⟨⟨fun x hx => absurd hx (List.not_mem_nil x), hinv.2⟩,
              by simp [nest_step, h2]⟩
          | table alignment =>
            injection h with he hs
            subst he
            subst hs
            exact ⟨⟨fun x hx => absurd hx (List.not_mem_nil x), hinv.2⟩,
              by simp [nest_step, h2]⟩
          | tableHead =>
            injection h with he hs
            subst he
            subst hs
            exact ⟨⟨fun x hx => absurd hx (List.not_mem_nil x), hinv.2⟩,
              by simp [nest_step, h2]⟩
          | tableRow =>
            injection h with he hs
            subst he
            subst hs
            exact ⟨⟨fun x hx => absurd hx (List.not_mem_nil x), hinv.2⟩,
              by simp [nest_step, h2]⟩
          | tableCell =>
            injection h with he hs
            subst he
            subst hs
            exact ⟨⟨fun x hx => absurd hx (List.not_mem_nil x), hinv.2⟩,
              by simp [nest_step, h2]⟩
          | emphasis =>
            injection h with he hs
            subst he
            subst hs
            exact ⟨⟨fun x hx => absurd hx (List.not_mem_nil x), hinv.2⟩,
              by simp [nest_step, h2]⟩
          | strong =>
            injection h with he hs
            subst he
            subst hs
            exact ⟨⟨fun x hx => absurd hx (List.not_mem_nil x), hinv.2⟩,
              by simp [nest_step, h2]⟩
          | strikethrough =>
            injection h with he hs
            subst he
            subst hs
            exact ⟨⟨fun x hx => absurd hx (List.not_mem_nil x), hinv.2⟩,
              by simp [nest_step, h2]⟩
          | htmlBlock =>
            injection h with he hs
            subst he
            subst hs
            exact ⟨⟨fun x hx => absurd hx (List.not_mem_nil x), hinv.2⟩,
              by simp [nest_step, h2]⟩
          | metadataBlock kind =>
            injection h with he hs
            subst he
            subst hs
            exact ⟨⟨fun x hx => absurd hx (List.not_mem_nil x), hinv.2⟩,
              by simp [nest_step, h2]⟩
          | link destUrl title =>
            injection h with he hs
            subst he
            subst hs
            exact ⟨⟨fun x hx => absurd hx (List.not_mem_nil x), hinv.2⟩,
              by simp [nest_step, h2]⟩
          | image destUrl title =>
            injection h with he hs
            subst he
            subst hs
            exact ⟨⟨fun x hx => absurd hx (List.not_mem_nil x), hinv.2⟩,
              by simp [nest_step, h2]⟩

/-- Helper: when `process_attr_node` continues without emitting, the mark
stack and the pending-event stack are untouched. -/
theorem ser_pan_cont (rest : SerState) (node : MarkdownNode) (index : Nat)
    (content : List MarkdownNode) (tag : Tag) :
    ∀ s', ser_process_attr_node rest node index content tag = .cont s' →
      s'.marks = rest.marks ∧ s'.stack = rest.stack := by
  intro s' h
  unfold ser_process_attr_node at h
  by_cases hidx : index = 0
  · rw [if_pos hidx] at h
    cases hm : rest.marks with
    | cons m ms =>
      simp only [hm] at h
      cases ht : mark_tag m with
      | some mtag => simp only [ht] at h; exact SerStep.noConfusion h
      | none => simp only [ht] at h; exact SerStep.noConfusion h
    | nil =>
      simp only [hm] at h
      cases hpc : ser_process_content index content node rest.inner with
      | mk inner' last =>
        simp only [hpc] at h
        exact SerStep.noConfusion h
  · rw [if_neg hidx] at h
    cases hpc : ser_process_content index content node rest.inner with
    | mk inner' last =>
      simp only [hpc] at h
      cases last with
      | false =>
        simp only [Bool.false_eq_true, if_false] at h
        injection h with hs
        subst hs
        exact ⟨rfl, rfl⟩
      | true =>
        simp only [if_true] at h
        cases hm : rest.marks with
        | cons m ms =>
          simp only [hm] at h
          cases ht : mark_tag m with
          | some mtag => simp only [ht] at h; exact SerStep.noConfusion h
          | none => simp only [ht] at h; exact SerStep.noConfusion h
        | nil =>
          simp only [hm] at h
          cases tag <;> exact SerStep.noConfusion h

/-- Helper: an event emitted by the `Text` branch's mark loop respects the
well-nesting stack and preserves the invariant. -/
theorem ser_text_emit_sound (rest : SerState) (node : MarkdownNode)
    (index : Nat) (tn : TextNode) (hinv : ser_inv rest) :
    ∀ e s', ser_text_emit rest node index tn = .emit e s' →
      ser_inv s' ∧
        nest_step (open_mark_tags rest.marks) e =
          some (open_mark_tags s'.marks) := by
  intro e s' h
  unfold ser_text_emit at h
  cases hl : ser_text_loop tn.text rest.marks none tn.marks with
  | inl pair =>
    obtain ⟨mark, startTag⟩ := pair
    simp only [hl] at h
    injection h with he hs
    subst he
    subst hs
    have hmt : mark_tag mark = some startTag :=
      ser_text_loop_start tn.text rest.marks tn.marks none mark startTag hl
    refine ⟨⟨?_, hinv.2⟩, ?_⟩
    · intro x hx
      rcases List.mem_cons.mp hx with hx | hx
      · rw [hx, hmt]
        rfl
      · exact hinv.1 x hx
    · rw [open_mark_tags_cons mark startTag rest.marks hmt]
      simp [nest_step, (mark_tag_is_mark mark startTag hmt).1]
  | inr copt =>
    cases copt with
    | some ev =>
      simp only [hl] at h
      injection h with he hs
      subst he
      subst hs
      have hne : is_mark_event ev = false :=
        ser_text_loop_custom tn.text rest.marks tn.marks none ev
          (fun c hc => Option.noConfusion hc) hl
      exact ⟨hinv, nest_step_neutral _ _ hne⟩
    | none =>
      simp only [hl] at h
      injection h with he hs
      subst he
      subst hs
      exact ⟨hinv, nest_step_neutral _ _ rfl⟩

/-- Helper: the `Text` branch never silently continues (it always emits or
panics). -/
theorem ser_text_emit_no_cont (rest : SerState) (node : MarkdownNode)
    (index : Nat) (tn : TextNode) :
    ∀ s', ser_text_emit rest node index tn ≠ .cont s' := by
  intro s' h
  unfold ser_text_emit at h
  cases hl : ser_text_loop tn.text rest.marks none tn.marks with
  | inl pair =>
    obtain ⟨mark, startTag⟩ := pair
    simp only [hl] at h
    exact SerStep.noConfusion h
  | inr copt =>
    cases copt with
    | some ev => simp only [hl] at h; exact SerStep.noConfusion h
    | none => simp only [hl] at h; exact SerStep.noConfusion h

/-- Helper: an event emitted by the `Text` branch (including the close of
the top open mark) respects the well-nesting stack and preserves the
invariant. -/
theorem ser_text_branch_sound (rest : SerState) (node : MarkdownNode)
    (index : Nat) (tn : TextNode) (hinv : ser_inv rest) :
    ∀ e s', ser_text_branch rest node index tn = .emit e s' →
      ser_inv s' ∧
        nest_step (open_mark_tags rest.marks) e =
          some (open_mark_tags s'.marks) := by
  intro e s' h
  unfold ser_text_branch at h
  cases hm : rest.marks with
  | nil =>
    simp only [hm] at h
    rw [← hm]
    exact ser_text_emit_sound rest node index tn hinv e s' h
  | cons last ms =>
    simp only [hm] at h
    by_cases hc : tn.marks.contains last = true
    · rw [if_pos hc] at h
      rw [← hm]
      exact ser_text_emit_sound rest node index tn hinv e s' h
    · rw [if_neg hc] at h
      cases ht : mark_tag last with
      | some mtag =>
        simp only [ht] at h
        injection h with he hs
        subst he
        subst hs
        refine ⟨⟨?_, hinv.2⟩, ?_⟩
        · intro x hx
          refine hinv.1 x ?_
          rw [hm]
          exact List.mem_cons_of_mem last hx
        · exact nest_step_pop last mtag ms ht
      | none =>
        simp only [ht] at h
        exact SerStep.noConfusion h

/-- Helper: the `Text` branch of the serializer never silently continues. -/
theorem ser_text_branch_no_cont (rest : SerState) (node : MarkdownNode)
    (index : Nat) (tn : TextNode) :
    ∀ s', ser_text_branch rest node index tn ≠ .cont s' := by
  intro s' h
  unfold ser_text_branch at h
  cases hm : rest.marks with
  | nil =>
    simp only [hm] at h
    exact ser_text_emit_no_cont rest node index tn s' h
  | cons last ms =>
    simp only [hm] at h
    by_cases hc : tn.marks.contains last = true
    · rw [if_pos hc] at h
      exact ser_text_emit_no_cont rest node index tn s' h
    · rw [if_neg hc] at h
      cases ht : mark_tag last with
      | some mtag => simp only [ht] at h; exact SerStep.noConfusion h
      | none => simp only [ht] at h; exact SerStep.noConfusion h

/-- Helper: carry the invariant across a state whose marks and stack agree
with an invariant state. -/
theorem ser_inv_of_eq (s t : SerState) (h1 : s.marks = t.marks)
    (h2 : s.stack = t.stack) (ht : ser_inv t) : ser_inv s :=
  ⟨fun m hm => ht.1 m (h1 ▸ hm), fun e he => ht.2 e (h2 ▸ he)⟩

/-- Helper: one serializer step either ends the stream, emits an event that
the well-nesting checker accepts (moving the open-tag stack to the new
state's), or continues with the mark stack untouched — always preserving
the invariant. -/
theorem ser_step_sound (s : SerState) (hinv : ser_inv s) :
    (∀ e s', ser_step s = .emit e s' → ser_inv s' ∧
      nest_step (open_mark_tags s.marks) e = some (open_mark_tags s'.marks)) ∧
    (∀ s', ser_step s = .cont s' → ser_inv s' ∧ s'.marks = s.marks) := by
  obtain ⟨inner, marks, stack⟩ := s
  cases stack with
  | cons ev st =>
    constructor
    · intro e s' h
      injection h with he hs
      subst he
      subst hs
      have hev : ev = Event.endTag TagEnd.codeBlock :=
        hinv.2 ev (List.mem_cons_self ev st)
      refine ⟨⟨hinv.1, fun x hx => hinv.2 x (List.mem_cons_of_mem ev hx)⟩, ?_⟩
      rw [hev]
      exact nest_step_neutral _ _ rfl
    · intro s' h
      exact SerStep.noConfusion h
  | nil =>
    cases inner with
    | nil =>
      exact ⟨fun e s' h => SerStep.noConfusion h,
        fun s' h => SerStep.noConfusion h⟩
    | cons entry restInner =>
      obtain ⟨node, index⟩ := entry
      cases node with
      | doc content =>
        constructor
        · intro e s' h
          simp only [ser_step] at h
          exact SerStep.noConfusion h
        · intro s' h
          simp only [ser_step] at h
          injection h with hs
          subst hs
          exact ⟨⟨hinv.1, hinv.2⟩, rfl⟩
      | text tn =>
        constructor
        · intro e s' h
          simp only [ser_step] at h
          exact ser_text_branch_sound
            { inner := restInner, marks := marks, stack := [] } _ index tn
            ⟨hinv.1, hinv.2⟩ e s' h
        · intro s' h
          simp only [ser_step] at h
          exact absurd h (ser_text_branch_no_cont
            { inner := restInner, marks := marks, stack := [] } _ index tn s')
      | heading attrs content =>
        constructor
        · intro e s' h
          simp only [ser_step] at h
          exact ser_pan_emit
            { inner := restInner, marks := marks, stack := [] } _ index content _
            ⟨hinv.1, hinv.2⟩ (by rfl) (by rfl) e s' h
        · intro s' h
          simp only [ser_step] at h
          obtain ⟨hm, hst⟩ := ser_pan_cont
            { inner := restInner, marks := marks, stack := [] } _ index content _ s' h
          exact ⟨ser_inv_of_eq s' _ hm hst ⟨hinv.1, hinv.2⟩, hm⟩
      | codeBlock attrs content =>
        constructor
        · intro e s' h
          simp only [ser_step] at h
          exact ser_pan_emit
            { inner := restInner, marks := marks, stack := [] } _ index content _
            ⟨hinv.1, hinv.2⟩ (by rfl) (by rfl) e s' h
        · intro s' h
          simp only [ser_step] at h
          obtain ⟨hm, hst⟩ := ser_pan_cont
            { inner := restInner, marks := marks, stack := [] } _ index content _ s' h
          exact ⟨ser_inv_of_eq s' _ hm hst ⟨hinv.1, hinv.2⟩, hm⟩
      | blockquote content =>
        constructor
        · intro e s' h
          simp only [ser_step] at h
          exact ser_pan_emit
            { inner := restInner, marks := marks, stack := [] } _ index content _
            ⟨hinv.1, hinv.2⟩ (by rfl) (by rfl) e s' h
        · intro s' h
          simp only [ser_step] at h
          obtain ⟨hm, hst⟩ := ser_pan_cont
            { inner := restInner, marks := marks, stack := [] } _ index content _ s' h
          exact ⟨ser_inv_of_eq s' _ hm hst ⟨hinv.1, hinv.2⟩, hm⟩
      | paragraph content =>
        constructor
        · intro e s' h
          simp only [ser_step] at h
          exact ser_pan_emit
            { inner := restInner, marks := marks, stack := [] } _ index content _
            ⟨hinv.1, hinv.2⟩ (by rfl) (by rfl) e s' h
        · intro s' h
          simp only [ser_step] at h
          obtain ⟨hm, hst⟩ := ser_pan_cont
            { inner := restInner, marks := marks, stack := [] } _ index content _ s' h
          exact ⟨ser_inv_of_eq s' _ hm hst ⟨hinv.1, hinv.2⟩, hm⟩
      | bulletList attrs content =>
        constructor
        · intro e s' h
          simp only [ser_step] at h
          exact ser_pan_emit
            { inner := restInner, marks := marks, stack := [] } _ index content _
            ⟨hinv.1, hinv.2⟩ (by rfl) (by rfl) e s' h
        · intro s' h
          simp only [ser_step] at h
          obtain ⟨hm, hst⟩ := ser_pan_cont
            { inner := restInner, marks := marks, stack := [] } _ index content _ s' h
          exact ⟨ser_inv_of_eq s' _ hm hst ⟨hinv.1, hinv.2⟩, hm⟩
      | orderedList attrs content =>
        constructor
        · intro e s' h
          simp only [ser_step] at h
          exact ser_pan_emit
            { inner := restInner, marks := marks, stack := [] } _ index content _
            ⟨hinv.1, hinv.2⟩ (by rfl) (by rfl) e s' h
        · intro s' h
          simp only [ser_step] at h
          obtain ⟨hm, hst⟩ := ser_pan_cont
            { inner := restInner, marks := marks, stack := [] } _ index content _ s' h
          exact ⟨ser_inv_of_eq s' _ hm hst ⟨hinv.1, hinv.2⟩, hm⟩
      | listItem content =>
        constructor
        · intro e s' h
          simp only [ser_step] at h
          exact ser_pan_emit
            { inner := restInner, marks := marks, stack := [] } _ index content _
            ⟨hinv.1, hinv.2⟩ (by rfl) (by rfl) e s' h
        · intro s' h
          simp only [ser_step] at h
          obtain ⟨hm, hst⟩ := ser_pan_cont
            { inner := restInner, marks := marks, stack := [] } _ index content _ s' h
          exact ⟨ser_inv_of_eq s' _ hm hst ⟨hinv.1, hinv.2⟩, hm⟩
      | metadata content =>
        constructor
        · intro e s' h
          simp only [ser_step] at h
          exact ser_pan_emit
            { inner := restInner, marks := marks, stack := [] } _ index content _
            ⟨hinv.1, hinv.2⟩ (by rfl) (by rfl) e s' h
        · intro s' h
          simp only [ser_step] at h
          obtain ⟨hm, hst⟩ := ser_pan_cont
            { inner := restInner, marks := marks, stack := [] } _ index content _ s' h
          exact ⟨ser_inv_of_eq s' _ hm hst ⟨hinv.1, hinv.2⟩, hm⟩
      | image attrs content =>
        constructor
        · intro e s' h
          simp only [ser_step] at h
          exact ser_pan_emit
            { inner := restInner, marks := marks, stack := [] } _ index content _
            ⟨hinv.1, hinv.2⟩ (by rfl) (by rfl) e s' h
        · intro s' h
          simp only [ser_step] at h
          obtain ⟨hm, hst⟩ := ser_pan_cont
            { inner := restInner, marks := marks, stack := [] } _ index content _ s' h
          exact ⟨ser_inv_of_eq s' _ hm hst ⟨hinv.1, hinv.2⟩, hm⟩
      | footnoteDefinition attrs content =>
        constructor
        · intro e s' h
          simp only [ser_step] at h
          exact ser_pan_emit
            { inner := restInner, marks := marks, stack := [] } _ index content _
            ⟨hinv.1, hinv.2⟩ (by rfl) (by rfl) e s' h
        · intro s' h
          simp only [ser_step] at h
          obtain ⟨hm, hst⟩ := ser_pan_cont
            { inner := restInner, marks := marks, stack := [] } _ index content _ s' h
          exact ⟨ser_inv_of_eq s' _ hm hst ⟨hinv.1, hinv.2⟩, hm⟩
      | table attrs content =>
        constructor
        · intro e s' h
          simp only [ser_step] at h
          exact ser_pan_emit
            { inner := restInner, marks := marks, stack := [] } _ index content _
            ⟨hinv.1, hinv.2⟩ (by rfl) (by rfl) e s' h
        · intro s' h
          simp only [ser_step] at h
          obtain ⟨hm, hst⟩ := ser_pan_cont
            { inner := restInner, marks := marks, stack := [] } _ index content _ s' h
          exact ⟨ser_inv_of_eq s' _ hm hst ⟨hinv.1, hinv.2⟩, hm⟩
      | tableHead content =>
        constructor
        · intro e s' h
          simp only [ser_step] at h
          exact ser_pan_emit
            { inner := restInner, marks := marks, stack := [] } _ index content _
            ⟨hinv.1, hinv.2⟩ (by rfl) (by rfl) e s' h
        · intro s' h
          simp only [ser_step] at h
          obtain ⟨hm, hst⟩ := ser_pan_cont
            { inner := restInner, marks := marks, stack := [] } _ index content _ s' h
          exact ⟨ser_inv_of_eq s' _ hm hst ⟨hinv.1, hinv.2⟩, hm⟩
      | tableRow content =>
        constructor
        · intro e s' h
          simp only [ser_step] at h
          exact ser_pan_emit
            { inner := restInner, marks := marks, stack := [] } _ index content _
            ⟨hinv.1, hinv.2⟩ (by rfl) (by rfl) e s' h
        · intro s' h
          simp only [ser_step] at h
          obtain ⟨hm, hst⟩ := ser_pan_cont
            { inner := restInner, marks := marks, stack := [] } _ index content _ s' h
          exact ⟨ser_inv_of_eq s' _ hm hst ⟨hinv.1, hinv.2⟩, hm⟩
      | tableCell content =>
        constructor
        · intro e s' h
          simp only [ser_step] at h
          exact ser_pan_emit
            { inner := restInner, marks := marks, stack := [] } _ index content _
            ⟨hinv.1, hinv.2⟩ (by rfl) (by rfl) e s' h
        · intro s' h
          simp only [ser_step] at h
          obtain ⟨hm, hst⟩ := ser_pan_cont
            { inner := restInner, marks := marks, stack := [] } _ index content _ s' h
          exact ⟨ser_inv_of_eq s' _ hm hst ⟨hinv.1, hinv.2⟩, hm⟩
      | horizontalRule =>
        constructor
        · intro e s' h
          simp only [ser_step] at h
          injection h with he hs
          subst he
          subst hs
          exact ⟨⟨hinv.1, hinv.2⟩, nest_step_neutral _ _ rfl⟩
        · intro s' h
          simp only [ser_step] at h
          exact SerStep.noConfusion h
      | hardBreak =>
        constructor
        · intro e s' h
          simp only [ser_step] at h
          injection h with he hs
          subst he
          subst hs
          exact ⟨⟨hinv.1, hinv.2⟩, nest_step_neutral _ _ rfl⟩
        · intro s' h
          simp only [ser_step] at h
          exact SerStep.noConfusion h
      | taskListMarker attrs =>
        constructor
        · intro e s' h
          simp only [ser_step] at h
          injection h with he hs
          subst he
          subst hs
          exact ⟨⟨hinv.1, hinv.2⟩, nest_step_neutral _ _ rfl⟩
        · intro s' h
          simp only [ser_step] at h
          exact SerStep.noConfusion h
/-- Helper: from any invariant state, every event stream the serializer can
produce is well-nested from the corresponding open-tag stack. -/
theorem ser_run_nested (fuel : Nat) :
    ∀ s : SerState, ser_inv s →
      well_nested_from (open_mark_tags s.marks) (ser_run fuel s) = true := by
  induction fuel with
  | zero =>
    intro s _
    rfl
  | succ n ih =>
    intro s hinv
    cases hstep : ser_step s with
    | done => simp [ser_run, hstep, well_nested_from]
    | panic => simp [ser_run, hstep, well_nested_from]
    | cont s' =>
      obtain ⟨hinv', hmeq⟩ := (ser_step_sound s hinv).2 s' hstep
      simp only [ser_run, hstep]
      rw [← hmeq]
      exact ih s' hinv'
    | emit e s' =>
      obtain ⟨hinv', hnest⟩ := (ser_step_sound s hinv).1 e s' hstep
      simp only [ser_run, hstep, well_nested_from, hnest]
      exact ih s' hinv'

/-- Claim C4: for every document tree (hence for any assignment of mark
sets to adjacent text nodes — disjoint, overlapping or identical), the
event stream produced by the serializer, restricted to mark start and end
events, is stack-balanced: every mark end event closes exactly the most
recently opened still-open mark, for any amount of fuel given to the
iterator. -/
theorem c4_mark_well_nesting (doc : MarkdownNode) (fuel : Nat) :
    well_nested_from [] (ser_run fuel (ser_init doc)) = true := by
  have h := ser_run_nested fuel (ser_init doc)
    ⟨fun m hm => absurd hm (List.not_mem_nil m),
      fun e he => absurd he (List.not_mem_nil e)⟩
  simpa [ser_init, open_mark_tags] using h

/-! ## Claim C6: code-fence backtick escaping -/

/-- Helper: gluing a `String.mk` of appended data back into `++`. -/
theorem string_mk_append (a b : String) :
    String.mk (a.data ++ b.data) = a ++ b := rfl

/-- Helper: the character data of an appended string. -/
theorem string_data_append (a b : String) :
    (a ++ b).data = a.data ++ b.data := rfl

/-- Helper: the character data of a newline literal. -/
theorem string_newline_data : ("\n" : String).data = ['\n'] := rfl

/-- Helper: printing a text event inside an open fenced code block appends
the text and folds its backtick run into the counter. -/
theorem print_text_in_codeblock (lang : String) (r : Nat × Nat)
    (buf : String) (cbt : Nat) (t : String) :
    print_event
      { buffer := buf,
        tag_stack := [⟨.codeBlock (.fenced lang), r, none⟩],
        separate_by_newline := .none, codeblock_backticks := cbt,
        table_context := none } (.text t) =
      some { buffer := buf ++ t,
             tag_stack := [⟨.codeBlock (.fenced lang), r, none⟩],
             separate_by_newline := .none,
             codeblock_backticks := max cbt (max_backtick_run t),
             table_context := none } := by
  simp [print_event, PState.print_str, PState.set_buffer, PState.pbuffer,
    PState.in_tag]

/-- Helper: folding the printer over the text events of an open fenced code
block concatenates the texts and takes the running maximum of their
per-event backtick runs. -/
theorem run_texts_in_codeblock (lang : String) (r : Nat × Nat) :
    ∀ (texts : List String) (buf : String) (cbt : Nat),
    List.foldlM print_event
      { buffer := buf,
        tag_stack := [⟨.codeBlock (.fenced lang), r, none⟩],
        separate_by_newline := .none, codeblock_backticks := cbt,
        table_context := none } (texts.map Event.text) =
      some { buffer := buf ++ str_concat texts,
             tag_stack := [⟨.codeBlock (.fenced lang), r, none⟩],
             separate_by_newline := .none,
             codeblock_backticks :=
               texts.foldl (fun acc t => max acc (max_backtick_run t)) cbt,
             table_context := none } := by
  intro texts
  induction texts with
  | nil =>
    intro buf cbt
    simp [str_concat]
  | cons t ts ih =>
    intro buf cbt
    rw [List.map_cons, List.foldlM_cons, print_text_in_codeblock]
    simp only [Option.bind_eq_bind, Option.some_bind]
    rw [ih]
    rw [str_concat, ← String.append_assoc]
    rfl

/-- Claim C6 (amended): for every info string and every way the block's
text arrives as a sequence of text events, the printed fenced code block
is the fence, the info string and a newline, the concatenated text, and
the closing fence, where both fences consist of exactly `max(k, 2) + 1`
backticks for `k` the largest backtick run observed within any single text
event (runs are counted per event and never joined across adjacent
events); the opening fence is inserted retroactively at the recorded start
position. -/
theorem c6_code_fence (lang : String) (texts : List String) :
    run_printer pinit (cb_events lang texts) =
      some { buffer :=
               str_repeat "`" (max (max_event_backtick_run texts) 2 + 1)
                 ++ (lang ++ "\n" ++ str_concat texts)
                 ++ str_repeat "`" (max (max_event_backtick_run texts) 2 + 1),
             tag_stack := [],
             separate_by_newline := .block,
             codeblock_backticks := max_event_backtick_run texts,
             table_context := none } := by
  unfold run_printer cb_events
  rw [List.foldlM_cons]
  have h1 : print_event pinit (.start (.codeBlock (.fenced lang))) =
      some { buffer := lang ++ "\n",
             tag_stack :=
               [⟨.codeBlock (.fenced lang), (0, (lang ++ "\n").length), none⟩],
             separate_by_newline := .none, codeblock_backticks := 0,
             table_context := none } := by
    simp [print_event, print_tag_start, pinit, PState.print_newline,
      PState.print_str, PState.set_buffer, PState.pbuffer, PState.buffer_len]
  rw [h1]
  simp only [Option.bind_eq_bind, Option.some_bind]
  rw [List.foldlM_append, run_texts_in_codeblock]
  simp only [Option.bind_eq_bind, Option.some_bind]
  have h2 : print_event
      { buffer := (lang ++ "\n") ++ str_concat texts,
        tag_stack :=
          [⟨.codeBlock (.fenced lang), (0, (lang ++ "\n").length), none⟩],
        separate_by_newline := .none,
        codeblock_backticks := max_event_backtick_run texts,
        table_context := none } (.endTag .codeBlock) =
      some { buffer :=
               str_repeat "`" (max (max_event_backtick_run texts) 2 + 1)
                 ++ ((lang ++ "\n") ++ str_concat texts)
                 ++ str_repeat "`" (max (max_event_backtick_run texts) 2 + 1),
             tag_stack := [], separate_by_newline := .block,
             codeblock_backticks := max_event_backtick_run texts,
             table_context := none } := by
    simp [print_event, print_tag_end, PState.insert_str, PState.insert_at,
      PState.print_str, PState.set_buffer, PState.pbuffer,
      PState.tag_is_block, string_mk_append]
    apply String.ext
    simp [string_data_append, string_newline_data]
  rw [List.foldlM_cons]
  rw [show (max_event_backtick_run texts) =
      texts.foldl (fun acc t => max acc (max_backtick_run t)) 0 from rfl] at h2 ⊢
  rw [h2]
  simp [String.append_assoc]

/-- Claim C6 counterexample: the claim computes the fence from the longest
backtick run in the block's text content, but the printer counts runs per
text event.  For a block whose text arrives as two events "``" and "`",
the concatenated content "```" contains a run of 3, so the claim requires
a fence of `max(3, 2) + 1 = 4` backticks, yet the printed output uses a
3-backtick fence (and the closing fence merges with the content into a run
of 6) — the fence is not strictly longer than the run inside the block. -/
theorem c6_counterexample :
    (run_printer pinit (cb_events "" ["``", "`"])).map PState.buffer =
      some "```\n``````" ∧
    str_concat ["``", "`"] = "```" ∧
    max_backtick_run "```" = 3 ∧
    str_repeat "`" (max 3 2 + 1) = "````" ∧
    ("```\n``````".take 4 = "```\n" ∧ "```\n``````".take 4 ≠ "````") := by
  refine ⟨?_, by decide, by decide, by decide, by decide, by decide⟩
  rfl

/-! ## Claim C9: table column widths -/

/-- Helper: folding `max` from an arbitrary start. -/
theorem foldl_max_init (l : List Nat) :
    ∀ init : Nat, l.foldl max init = max init (l.foldl max 0) := by
  induction l with
  | nil =>
    intro init
    simp
  | cons x xs ih =>
    intro init
    rw [List.foldl_cons, List.foldl_cons, ih (max init x), ih (max 0 x)]
    simp [Nat.max_assoc]

/-- Helper: folding the `Option` maximum from an arbitrary start. -/
theorem foldl_opt_max_init (l : List (Option Nat)) :
    ∀ init, l.foldl TableCtx.opt_max init =
      TableCtx.opt_max init (l.foldl TableCtx.opt_max none) := by
  induction l with
  | nil =>
    intro init
    cases init <;> rfl
  | cons x xs ih =>
    intro init
    rw [List.foldl_cons, List.foldl_cons, ih (TableCtx.opt_max init x),
      ih (TableCtx.opt_max none x)]
    cases init <;> cases x <;> cases xs.foldl TableCtx.opt_max none <;>
      simp [TableCtx.opt_max, Nat.max_assoc]

/-- Helper: the `Option`-maximum fold is the plain maximum of the present
values, or `none` when no value is present. -/
theorem big_opt_eq (l : List (Option Nat)) :
    l.foldl TableCtx.opt_max none =
      if l.filterMap id = [] then none
      else some ((l.filterMap id).foldl max 0) := by
  induction l with
  | nil => rfl
  | cons x xs ih =>
    cases x with
    | none =>
      rw [List.foldl_cons]
      simpa [List.filterMap_cons] using ih
    | some a =>
      have hfc : List.filterMap id (some a :: xs) = a :: List.filterMap id xs := rfl
      rw [List.foldl_cons, foldl_opt_max_init, hfc]
      by_cases hf : xs.filterMap id = []
      · rw [ih, if_pos hf, hf, if_neg (by simp)]
        simp [TableCtx.opt_max]
      · rw [ih, if_neg hf, if_neg (by simp)]
        rw [List.foldl_cons, foldl_max_init (xs.filterMap id)]
        simp [TableCtx.opt_max]
        exact (foldl_max_init (xs.filterMap id) a).symm

/-- Helper: an index below the maximum of a list of lengths is below one of
them. -/
theorem lt_foldl_max (l : List Nat) (idx : Nat) :
    idx < l.foldl max 0 → ∃ n ∈ l, idx < n := by
  induction l with
  | nil => simp
  | cons x xs ih =>
    rw [List.foldl_cons, foldl_max_init xs (max 0 x)]
    intro h
    rcases lt_max_iff.mp h with h | h
    · exact ⟨x, List.mem_cons_self x xs,
        (lt_max_iff.mp h).resolve_left (by omega)⟩
    · obtain ⟨n, hn, hlt⟩ := ih h
      exact ⟨n, List.mem_cons_of_mem x hn, hlt⟩

/-- Helper: for every column index below `max_column`, the source's
combined `Option` maximum (header combined with the body-row fold, floored
at 3) is exactly the spec's column width. -/
theorem c9_pointwise (ctx : TableCtx) (idx : Nat) (h : idx < ctx.max_column) :
    (TableCtx.opt_max ((ctx.header.get? idx).map range_len)
        (ctx.rows.foldl
          (fun acc row => TableCtx.opt_max acc ((row.get? idx).map range_len))
          none)).map (fun m => max m 3) = some (spec_column_width ctx idx) := by
  have hrows : ctx.rows.foldl
      (fun acc row => TableCtx.opt_max acc ((row.get? idx).map range_len)) none
      = (ctx.rows.map fun row => (row.get? idx).map range_len).foldl
          TableCtx.opt_max none := by
    rw [List.foldl_map]
  rw [hrows]
  have hcons : TableCtx.opt_max ((ctx.header.get? idx).map range_len)
      ((ctx.rows.map fun row => (row.get? idx).map range_len).foldl
        TableCtx.opt_max none)
      = ((ctx.header :: ctx.rows).map fun row =>
          (row.get? idx).map range_len).foldl TableCtx.opt_max none := by
    rw [List.map_cons, List.foldl_cons]
    conv_rhs => rw [foldl_opt_max_init]
    generalize ((ctx.rows.map fun row => (row.get? idx).map range_len).foldl
      TableCtx.opt_max none) = B
    cases (ctx.header.get? idx).map range_len <;> cases B <;> rfl
  rw [hcons, big_opt_eq, List.filterMap_map]
  have hid : (id ∘ fun row : List (Nat × Nat) => (row.get? idx).map range_len)
      = fun row : List (Nat × Nat) => (row.get? idx).map range_len := rfl
  rw [hid]
  have hne : (ctx.header :: ctx.rows).filterMap
      (fun row => (row.get? idx).map range_len) ≠ [] := by
    intro hnil
    rw [List.filterMap_eq_nil_iff] at hnil
    unfold TableCtx.max_column at h
    obtain ⟨n, hn, hlt⟩ := lt_foldl_max _ idx h
    obtain ⟨row, hrow, hlen⟩ := List.mem_map.mp hn
    have hsome : (row.get? idx).isSome := by
      rw [List.get?_eq_get (by omega : idx < row.length)]
      rfl
    have hnone := hnil row hrow
    rw [Option.map_eq_none'] at hnone
    rw [hnone] at hsome
    exact Bool.noConfusion hsome
  rw [if_neg hne]
  simp [spec_column_width, Nat.max_comm]

/-- Claim C9: when the printer closes a table, each column's width is the
maximum of 3 and the length of the widest recorded cell in that column
across the header row and all body rows; for header `"a"` (length 1) over
cell `"ccc"` (length 3) the column width is 3, and the header, a dash
separator row sized to each column width, and each body row are emitted as
pipe-delimited, space-padded text. -/
theorem c9_table_column_widths :
    (∀ ctx : TableCtx, ctx.max_column_length =
        (List.range ctx.max_column).map (spec_column_width ctx)) ∧
    TableCtx.max_column_length ⟨"abbcccd", [(0, 1), (1, 3)], [[(3, 6), (6, 7)]]⟩
      = [3, 3] ∧
    (run_printer pinit
        [.start (.table [.none]), .start .tableHead, .start .tableCell,
          .text "a", .endTag .tableCell, .endTag .tableHead, .start .tableRow,
          .start .tableCell, .text "ccc", .endTag .tableCell,
          .endTag .tableRow, .endTag .table]).map PState.buffer =
      some "| a   |\n| --- |\n| ccc |\n" := by
  refine ⟨?_, by decide, rfl⟩
  intro ctx
  unfold TableCtx.max_column_length
  rw [List.filterMap_congr
    (fun idx hidx => c9_pointwise ctx idx (List.mem_range.mp hidx))]
  exact congrFun (List.filterMap_eq_map (spec_column_width ctx))
    (List.range ctx.max_column)

end ProseMD
